import Mathlib

/-!
Verification development for the blocky-editor core.

The definitions below are a shallow embedding of the repository's source:
`EditorController` (controller.ts), the view-layer `Editor` (editor.ts),
`NodeLocation` (data model), and the block/paste pipeline.  Parts of the
data layer (quill deltas, the changeset engine, the editor state) live in
packages that are not part of the source tree; those are modelled from the
specification and are marked `Modelled from the spec:` in their doc
comments.
-/

namespace Blocky

/-! ## Attributes and delta operations -/

/-- Modelled from the spec: an attribute value as stored in a delta
operation's attribute map (`AttributesObject`).  JavaScript values used by
the source are booleans, strings (`href`) and `null` (which clears the
attribute on a retain). -/
inductive AttrVal where
  | boolV (b : Bool)
  | strV (s : String)
  | nullV
deriving DecidableEq, Repr

/-- Modelled from the spec: an attribute map, `string → value`, kept as an
association list in insertion order (JavaScript object key order). -/
abbrev Attrs := List (String × AttrVal)

/-- Modelled from the spec: JavaScript truthiness of `attributes[key]` as
tested by `formatTextOnCursor` (`op.attributes && op.attributes[key]`). -/
def attrsTruthy (a : Option Attrs) (key : String) : Bool :=
  match a with
  | none => false
  | some l =>
    match l.lookup key with
    | some (.boolV b) => b
    | some (.strV s) => s != ""
    | some .nullV => false
    | none => false

/-- Modelled from the spec: assignment `attribs[key] = v` on a JavaScript
object — updates the key in place, or appends it. -/
def setAttr : Attrs → String → AttrVal → Attrs
  | [], k, v => [(k, v)]
  | (k0, v0) :: rest, k, v =>
    if k0 = k then (k0, v) :: rest else (k0, v0) :: setAttr rest k v

/-- Modelled from the spec: a rich-text delta operation —
`retain(n, attrs?)`, `insert(s, attrs?)` or `delete(n)`. -/
inductive Op where
  | insertOp (s : String) (attrs : Option Attrs)
  | retainOp (n : Nat) (attrs : Option Attrs)
  | deleteOp (n : Nat)
deriving DecidableEq, Repr

/-- Modelled from the spec: the attribute map carried by an operation. -/
def opAttrs : Op → Option Attrs
  | .insertOp _ a => a
  | .retainOp _ a => a
  | .deleteOp _ => none

/-- Modelled from the spec: the length of an operation in delta space
(insert length, retain length, or delete length). -/
def opLength : Op → Nat
  | .insertOp s _ => s.length
  | .retainOp n _ => n
  | .deleteOp n => n

/-- Modelled from the spec: a delta is a finite sequence of operations. -/
abbrev Delta := List Op

/-- Modelled from the spec: the characters contributed by one operation,
each paired with the operation's attributes.  Only inserts contribute. -/
def opFlat : Op → List (Char × Option Attrs)
  | .insertOp s a => s.data.map (fun c => (c, a))
  | .retainOp _ _ => []
  | .deleteOp _ => []

/-- Modelled from the spec: the attributed character sequence denoted by a
delta that encodes document content. -/
def flatten : Delta → List (Char × Option Attrs)
  | [] => []
  | op :: rest => opFlat op ++ flatten rest

/-- Modelled from the spec: the length of a text model — the sum of the
insert lengths of its delta. -/
def docLength (d : Delta) : Nat := (flatten d).length

/-- Modelled from the spec: a delta that encodes document content consists
of insert operations only. -/
def isDocB (d : Delta) : Bool :=
  d.all (fun op => match op with | .insertOp _ _ => true | _ => false)

/-- Modelled from the spec: attribute maps are dropped when empty (quill
stores `op.attributes` only for a non-empty object). -/
def normAttrs : Option Attrs → Option Attrs
  | none => none
  | some [] => none
  | some l => some l

/-- Modelled from the spec: appending an operation to a delta with
boundary-op merging when the kinds and attributes match. -/
def pushOp (ops : Delta) (newOp : Op) : Delta :=
  match ops.getLast?, newOp with
  | some (.deleteOp a), .deleteOp b => ops.dropLast ++ [.deleteOp (a + b)]
  | some (.insertOp s1 a1), .insertOp s2 a2 =>
    if a1 = a2 then ops.dropLast ++ [.insertOp (s1 ++ s2) a1] else ops ++ [newOp]
  | some (.retainOp n1 a1), .retainOp n2 a2 =>
    if a1 = a2 then ops.dropLast ++ [.retainOp (n1 + n2) a1] else ops ++ [newOp]
  | _, _ => ops ++ [newOp]

/-- Modelled from the spec: the `Delta.retain(n, attrs?)` builder — a
no-op for `n = 0`, otherwise pushes a retain. -/
def dRetain (d : Delta) (n : Nat) (a : Option Attrs) : Delta :=
  if n = 0 then d else pushOp d (.retainOp n (normAttrs a))

/-- Modelled from the spec: the `Delta.delete(n)` builder — a no-op for
`n = 0`, otherwise pushes a delete. -/
def dDelete (d : Delta) (n : Nat) : Delta :=
  if n = 0 then d else pushOp d (.deleteOp n)

/-- Modelled from the spec: `Delta.concat(other)` — append with
boundary-op merging at the junction. -/
def dConcat (d : Delta) (other : Delta) : Delta :=
  match other with
  | [] => d
  | o :: rest => pushOp d o ++ rest

/-- Modelled from the spec: the slice of one operation, keeping the window
`[a, b)` of its length (callers guarantee `a < b ≤ opLength op`). -/
def opSlice (op : Op) (a b : Nat) : Op :=
  match op with
  | .insertOp s at_ => .insertOp (String.mk ((s.data.drop a).take (b - a))) at_
  | .retainOp _ at_ => .retainOp (b - a) at_
  | .deleteOp _ => .deleteOp (b - a)

/-- Modelled from the spec: `Delta.slice(start, end?)` — the substring of
the delta in delta space; `none` as the upper bound means infinity. -/
def sliceDelta : Delta → Nat → Option Nat → Delta
  | [], _, _ => []
  | op :: rest, start, stop =>
    let l := opLength op
    match stop with
    | some st =>
      if st ≤ start then []
      else if l ≤ start then sliceDelta rest (start - l) (some (st - l))
      else opSlice op start (min st l) :: sliceDelta rest 0 (some (st - l))
    | none =>
      if l ≤ start then sliceDelta rest (start - l) none
      else opSlice op start l :: sliceDelta rest 0 none

/-- Modelled from the spec: composing a document delta with an edit delta
— "apply `other` to the document produced by `this`" — specialised to the
case the changeset engine uses, where the left-hand delta is document
content (insert-only).  Retains keep (and re-attribute) document content,
deletes drop it, inserts inject new content, and leftover document content
is kept. -/
def applyAttrPair (edit : Attrs) (docA : Option Attrs) : Option Attrs :=
  normAttrs (some (edit.foldl
    (fun acc kv =>
      match kv.2 with
      | .nullV => acc.filter (fun p => p.1 != kv.1)
      | v => setAttr acc kv.1 v)
    (docA.getD [])))

/-- Modelled from the spec: re-attribute a run of document content with a
retain's attribute map (`null` clears a key). -/
def applyAttrsTo (edit : Attrs) (d : Delta) : Delta :=
  d.map (fun op =>
    match op with
    | .insertOp s a => .insertOp s (applyAttrPair edit a)
    | other => other)

/-- Modelled from the spec: apply an edit delta to a document delta (see
`applyAttrPair` for the attribute part). -/
def applyDelta (doc : Delta) : Delta → Delta
  | [] => doc
  | .insertOp s a :: rest => .insertOp s a :: applyDelta doc rest
  | .retainOp n none :: rest =>
    sliceDelta doc 0 (some n) ++ applyDelta (sliceDelta doc n none) rest
  | .retainOp n (some a) :: rest =>
    applyAttrsTo a (sliceDelta doc 0 (some n)) ++ applyDelta (sliceDelta doc n none) rest
  | .deleteOp n :: rest => applyDelta (sliceDelta doc n none) rest

/-! ## NodeLocation (source: spannerMenu.tsx, `NodeLocation`) -/

/-- A path component of a `NodeLocation`: a child index (number) or an
attribute name (string), exactly as in the source. -/
inductive PathComp where
  | num (n : Int)
  | str (s : String)
deriving DecidableEq, Repr

/-- `isNumber` from lodash as used by `NodeLocation.transform`. -/
def isNumberComp : PathComp → Bool
  | .num _ => true
  | .str _ => false

/-- A `NodeLocation` is its (frozen) path; equality of locations is
component-wise equality of paths (`NodeLocation.equals`). -/
abbrev NodeLoc := List PathComp

/-- `NodeLocation.transform(base, location, delta)`, translated from
spannerMenu.tsx lines 199–229: early return when `base` is longer than
`location` or either is empty; early return on a prefix mismatch before
the last component of `base`; otherwise shift the index at depth
`base.length - 1` by `delta` iff both deciding components are numbers and
`base`'s last index is ≤ `location`'s index there. -/
def transform (base location : NodeLoc) (delta : Int) : NodeLoc :=
  if location.length < base.length then location
  else if base.length = 0 ∨ location.length = 0 then location
  else if base.take (base.length - 1) ≠ location.take (base.length - 1) then location
  else
    let prefx := base.take (base.length - 1)
    let suffix := location.drop base.length
    match base.get? (base.length - 1), location.get? (base.length - 1) with
    | some (.num baseLast), some (.num offsetAtIndex) =>
      if baseLast ≤ offsetAtIndex then prefx ++ [.num (offsetAtIndex + delta)] ++ suffix
      else prefx ++ [.num offsetAtIndex] ++ suffix
    | _, _ => location

/-- The condition under which `transform` shifts `location`'s component at
depth `base.length - 1`: `base` is non-empty and no longer than
`location`, the two paths agree strictly before that depth, both deciding
components are numbers, and `base`'s last index is ≤ `location`'s. -/
def shiftCond (base location : NodeLoc) : Bool :=
  decide (1 ≤ base.length) && decide (base.length ≤ location.length) &&
  decide (base.take (base.length - 1) = location.take (base.length - 1)) &&
  (match base.get? (base.length - 1), location.get? (base.length - 1) with
   | some (.num baseLast), some (.num offsetAtIndex) => decide (baseLast ≤ offsetAtIndex)
   | _, _ => false)

/-- Shift the component of `loc` at index `i` by `delta` when it is a
number; otherwise leave `loc` unchanged. -/
def shiftAt (loc : NodeLoc) (i : Nat) (delta : Int) : NodeLoc :=
  match loc.get? i with
  | some (.num o) => loc.set i (.num (o + delta))
  | _ => loc

/-! ## Cursor states and the document model (controller generation) -/

/-- Modelled from the spec: a cursor state
`{startId, startOffset, endId, endOffset}`; a collapsed cursor has both
endpoints coinciding. -/
structure CursorState where
  startId : String
  startOffset : Nat
  endId : String
  endOffset : Nat
deriving DecidableEq, Repr

/-- Modelled from the spec: `CursorState.collapse(id, offset)`. -/
def CursorState.collapse (id : String) (offset : Nat) : CursorState :=
  ⟨id, offset, id, offset⟩

/-- Modelled from the spec: `isCollapsed` iff both endpoints coincide. -/
def CursorState.isCollapsed (c : CursorState) : Bool :=
  c.startId = c.endId ∧ c.startOffset = c.endOffset

/-- Modelled from the spec: an open cursor is one that is not collapsed. -/
def CursorState.isOpen (c : CursorState) : Bool := !c.isCollapsed

/-- Modelled from the spec: the cursor's block id (used by the source when
`startId === endId`). -/
def CursorState.cursorId (c : CursorState) : String := c.endId

/-- Modelled from the spec: a block data element — a node tagged with a
block-type name and a stable id; text-like blocks carry a `textContent`
text model (held here as its delta). -/
structure BlockDataElement where
  t : String
  id : String
  text : Option Delta
deriving DecidableEq, Repr

/-- `TextBlock.Name` — the registered name of the plain text block. -/
def textBlockName : String := "Text"

/-- Modelled from the spec: `state.isTextLike(node)` is true iff the node
carries a text model under `textContent`. -/
def isTextLike (b : BlockDataElement) : Bool := b.text.isSome

/-- Modelled from the spec: the editor state owns the document body (the
ordered block elements of the `body` container), the current cursor and
the version counter. -/
structure EditorState where
  body : List BlockDataElement
  cursorState : Option CursorState
  version : Nat
deriving DecidableEq, Repr

/-- Modelled from the spec: `state.getBlockElementById(id)` via the block
index — the live block element of that id, if any. -/
def EditorState.getBlockElementById (s : EditorState) (id : String) :
    Option BlockDataElement :=
  s.body.find? (fun b => b.id = id)

/-- The length of a block's text model (0 for a non-text block). -/
def blockLen (b : BlockDataElement) : Nat :=
  match b.text with
  | some d => docLength d
  | none => 0

/-- The next sibling of the block with the given id in the body. -/
def nextSiblingOf (body : List BlockDataElement) (id : String) :
    Option BlockDataElement :=
  match body with
  | [] => none
  | b :: rest => if b.id = id then rest.head? else nextSiblingOf rest id

/-- Modelled from the spec: the operations a changeset records — text
edits (composing a block's text model with a delta) and node removals. -/
inductive COp where
  | textEditOp (blockId : String) (d : Delta)
  | removeNodeOp (blockId : String)
deriving DecidableEq, Repr

/-- Modelled from the spec: a changeset is a transactional builder — the
recorded operations plus the requested after-apply cursor. -/
structure Changeset where
  ops : List COp
  afterCursor : Option CursorState
deriving DecidableEq, Repr

/-- The empty changeset (`new Changeset(state)`). -/
def Changeset.empty : Changeset := ⟨[], none⟩

/-- Modelled from the spec: `changeset.textEdit(node, "textContent", fn)`
records a text edit for the node. -/
def Changeset.textEdit (cs : Changeset) (blockId : String) (d : Delta) :
    Changeset :=
  { cs with ops := cs.ops ++ [.textEditOp blockId d] }

/-- Modelled from the spec: `changeset.removeNode(node)` (and
`removeChild(parent, node)`) records the node's removal. -/
def Changeset.removeNode (cs : Changeset) (blockId : String) : Changeset :=
  { cs with ops := cs.ops ++ [.removeNodeOp blockId] }

/-- Modelled from the spec: `changeset.setCursorState(cursor)` sets the
requested after-apply cursor. -/
def Changeset.setCursorState (cs : Changeset) (c : CursorState) : Changeset :=
  { cs with afterCursor := some c }

/-- Modelled from the spec: executing one recorded operation against the
body — a text edit composes the text model with the delta, a removal
removes the node. -/
def applyCOp (body : List BlockDataElement) : COp → List BlockDataElement
  | .textEditOp blockId d =>
    body.map (fun b =>
      if b.id = blockId then
        { b with text := b.text.map (fun t => applyDelta t d) }
      else b)
  | .removeNodeOp blockId => body.filter (fun b => b.id ≠ blockId)

/-- Modelled from the spec: re-normalizing the current cursor under
`refreshCursor` — offsets clamped to the referenced blocks' lengths; a
cursor whose block no longer exists is dropped. -/
def clampCursor (body : List BlockDataElement) :
    Option CursorState → Option CursorState
  | none => none
  | some c =>
    match body.find? (fun b => b.id = c.startId),
          body.find? (fun b => b.id = c.endId) with
    | some bs, some be =>
      some ⟨c.startId, min c.startOffset (blockLen bs),
            c.endId, min c.endOffset (blockLen be)⟩
    | _, _ => none

/-- Modelled from the spec: `changeset.apply(opts?)` — operations executed
in recorded order, the cursor set to the requested after-cursor (or
re-normalized under `refreshCursor`), and the version incremented once. -/
def applyChangeset (s : EditorState) (cs : Changeset) (refreshCursor : Bool) :
    EditorState :=
  let body := cs.ops.foldl applyCOp s.body
  let cursor :=
    match cs.afterCursor with
    | some c => some c
    | none => if refreshCursor then clampCursor body s.cursorState else s.cursorState
  ⟨body, cursor, s.version + 1⟩

/-- Modelled from the spec: the controller owns the state; `editor` is set
once an editor is mounted (`hasEditor`). -/
structure Controller where
  hasEditor : Bool
  state : EditorState
deriving DecidableEq, Repr

/-- Modelled from the spec: `isUpperCase` (blocky-common) — block type
names start with an uppercase letter, container types do not; the test is
on the first character. -/
def isUpperCase (s : String) : Bool :=
  match s.data with
  | [] => false
  | ch :: _ => decide ('A' ≤ ch) && decide (ch ≤ 'Z')

/-! ## EditorController.deleteContentInsideInSelection (controller.ts 439–517) -/

/-- The body of the open-range delete loop, translated from the source's
`while (nodeTraverser.peek())` loop: the start text-like block gets
`retain(startOffset).delete(length - startOffset)` and sets the collapsed
after-cursor; the end text-like block appends its tail from `endOffset`
onto the start block and is removed; every other visited block is
removed; the loop stops after the end block. -/
def deleteRangeLoop (c : CursorState) (startN endN : BlockDataElement) :
    List BlockDataElement → Changeset → Changeset
  | [], cs => cs
  | item :: rest, cs =>
    let cs1 :=
      if item.id = startN.id ∧ isTextLike startN then
        let tm := startN.text.getD []
        ((cs.textEdit startN.id
            (dDelete (dRetain [] c.startOffset none)
              (docLength tm - c.startOffset))).setCursorState
          (CursorState.collapse startN.id c.startOffset))
      else if item.id = endN.id ∧ isTextLike endN then
        let tm := item.text.getD []
        let tail := sliceDelta tm c.endOffset none
        ((cs.textEdit startN.id
            (dConcat (dRetain [] c.startOffset none) tail)).removeNode item.id)
      else cs.removeNode item.id
    if item.id = endN.id then cs1 else deleteRangeLoop c startN endN rest cs1

/-- `EditorController.deleteContentInsideInSelection`, translated from
controller.ts 439–517.  Same-block cursors delete the selected span of a
text-like block (or remove a non-text block whole, moving the cursor to
the next sibling); cross-block cursors walk the blocks in document order
from the start block (the `NodeTraverser`, modelled as the suffix of the
body starting at the start block) and run `deleteRangeLoop`.  Returns the
new state together with the source's return value. -/
def deleteContentInsideInSelection (s : EditorState) (c : CursorState) :
    EditorState × Option CursorState :=
  if c.startId = c.endId then
    match s.getBlockElementById c.cursorId with
    | none => (s, none)
    | some cur =>
      if isTextLike cur then
        let newState := CursorState.collapse c.cursorId c.startOffset
        let cs := ((Changeset.empty.textEdit cur.id
            (dDelete (dRetain [] c.startOffset none)
              (c.endOffset - c.startOffset))).setCursorState newState)
        (applyChangeset s cs false, some newState)
      else
        let cs0 := Changeset.empty.removeNode cur.id
        match nextSiblingOf s.body cur.id with
        | some nxt =>
          let newState := CursorState.collapse nxt.id 0
          (applyChangeset s (cs0.setCursorState newState) false, some newState)
        | none => (applyChangeset s cs0 false, none)
  else
    match s.getBlockElementById c.startId, s.getBlockElementById c.endId with
    | some startN, some endN =>
      let items := s.body.dropWhile (fun b => b.id ≠ c.startId)
      let cs := deleteRangeLoop c startN endN items Changeset.empty
      (applyChangeset s cs false, cs.afterCursor)
    | _, _ => (s, none)

/-! ## EditorController.formatTextOnCursor (controller.ts 344–388) -/

/-- Modelled from the spec: `state.splitCursorStateByBlocks` — clips an
open cursor into one span per crossed text-like block in document order;
a cursor confined to one block is returned as-is. -/
def takeToId : List BlockDataElement → String → List BlockDataElement
  | [], _ => []
  | b :: rest, stopId => if b.id = stopId then [b] else b :: takeToId rest stopId

/-- Modelled from the spec: see `takeToId`; the first block keeps the
start offset, the last keeps the end offset, middle blocks span whole. -/
def splitCursorStateByBlocks (s : EditorState) (c : CursorState) :
    List CursorState :=
  if c.startId = c.endId then [c]
  else
    let blocks := (takeToId (s.body.dropWhile (fun b => b.id ≠ c.startId))
        c.endId).filter isTextLike
    blocks.map (fun b =>
      if b.id = c.startId then ⟨b.id, c.startOffset, b.id, blockLen b⟩
      else if b.id = c.endId then ⟨b.id, 0, b.id, c.endOffset⟩
      else ⟨b.id, 0, b.id, blockLen b⟩)

/-- `EditorController.formatTextOnCursor`, translated from controller.ts
344–388: for each per-block span over a `Text` block, slice the selected
range; when the slice is a single op and attributes were requested, each
requested key that is truthy on that op is flipped to `null` (the
JavaScript code mutates the shared `attribs` object, modelled by
threading it through the fold); then record
`retain(startOffset).retain(length, attribs)`.  Returns the built
changeset and the controller after applying it with `refreshCursor`. -/
def formatTextOnCursor (ctl : Controller) (cursorState : CursorState)
    (attribs : Option Attrs) : Changeset × Controller :=
  if !ctl.hasEditor then (Changeset.empty, ctl)
  else if cursorState.isCollapsed then (Changeset.empty, ctl)
  else
    let states := splitCursorStateByBlocks ctl.state cursorState
    let attribKeys := (attribs.getD []).map (fun kv => kv.1)
    let folded := states.foldl
      (fun (acc : Changeset × Option Attrs) st =>
        match ctl.state.getBlockElementById st.endId with
        | none => acc
        | some blockElement =>
          if blockElement.t ≠ textBlockName then acc
          else
            let currentText := blockElement.text.getD []
            let prevDelta := sliceDelta currentText st.startOffset (some st.endOffset)
            let attribs2 :=
              match prevDelta, acc.2 with
              | [op], some aList =>
                some (attribKeys.foldl
                  (fun a k => if attrsTruthy (opAttrs op) k then setAttr a k .nullV else a)
                  aList)
              | _, _ => acc.2
            (acc.1.textEdit blockElement.id
              (dRetain (dRetain [] st.startOffset none)
                (st.endOffset - st.startOffset) attribs2),
             attribs2))
      (Changeset.empty, attribs)
    (folded.1, { ctl with state := applyChangeset ctl.state folded.1 true })

/-! ## EditorController.deleteBlock (controller.ts 405–423) -/

/-- `EditorController.deleteBlock(id)`, translated from controller.ts
405–423: a no-op without a mounted editor, for an unknown id, or when the
block's type tag is not uppercase; otherwise a removal changeset is
applied with `refreshCursor`. -/
def deleteBlock (c : Controller) (id : String) : Controller :=
  if !c.hasEditor then c
  else
    match c.state.getBlockElementById id with
    | none => c
    | some blockNode =>
      if !isUpperCase blockNode.t then c
      else
        { c with state :=
            applyChangeset c.state (Changeset.empty.removeNode blockNode.id) true }

/-! ## Paste: EditorController.#divHandler (controller.ts 656–685) -/

/-- Modelled from the spec: the id generator — block ids are prefixed so
that `isBlockId` is a syntactic test; the generator state is a counter. -/
def mkBlockIdStr (gen : Nat) : String := "blk-" ++ toString gen

/-- Character-list prefix test (the semantics of `String.startsWith`,
stated on the character lists so that it evaluates). -/
def charsStartWith : List Char → List Char → Bool
  | [], _ => true
  | _ :: _, [] => false
  | p :: ps, c :: cs => if p = c then charsStartWith ps cs else false

/-- Modelled from the spec: the syntactic block-id test. -/
def isBlockId (s : String) : Bool := charsStartWith "blk-".data s.data

/-- Modelled from the spec: the serialized JSON node format
`{t, id, attributes, children?}` carried by a `data-content` attribute
(the JSON text itself is abstracted away as its parse). -/
structure JsonNode where
  t : String
  id : String
  text : Option Delta
deriving DecidableEq, Repr

/-- Modelled from the spec: a reconstructed data node — either a block
data element or a plain (container) element. -/
inductive DataNode where
  | blockNode (b : BlockDataElement)
  | elementNode (t : String)
deriving DecidableEq, Repr

/-- Modelled from the spec: `blockyNodeFromJsonNode` reconstructs a node
from its JSON form; block data elements are the nodes whose type tag is a
block name (uppercase first letter). -/
def blockyNodeFromJsonNode (j : JsonNode) : DataNode :=
  if isUpperCase j.t then .blockNode ⟨j.t, j.id, j.text⟩ else .elementNode j.t

/-- `BlockDataElement.cloneWithId` — the same element under a new id. -/
def cloneWithId (b : BlockDataElement) (newId : String) : BlockDataElement :=
  { b with id := newId }

/-- Modelled from the spec: a block definition as the paste pipeline sees
it — a registered name and an optional `OnPaste` handler. -/
structure BlockDef where
  name : String
  onPasteHandler : Option (String → Option BlockDataElement)

/-- Modelled from the spec: the sealed block registry,
`getBlockDefByName`. -/
def getBlockDefByName (reg : List BlockDef) (name : String) : Option BlockDef :=
  reg.find? (fun d => d.name = name)

/-- Modelled from the spec: a pasted `<div>` as the handler reads it — its
`data-type` attribute and its `data-content` attribute (the latter held as
its JSON parse; `none` covers both a missing attribute and the falsy empty
string). -/
structure HtmlDiv where
  dataType : Option String
  dataContent : Option JsonNode

/-- `EditorController.#divHandler`, translated from controller.ts
656–685: no `data-type` (or the falsy empty string) yields nothing; an
unregistered `data-type` yields nothing; a `data-content` whose node
deserializes to a block data element is cloned with a freshly minted
block id; otherwise the block definition's own paste handler (if any)
decides.  The paste handler is modelled as acting on the div's
`data-type`. -/
def divHandler (reg : List BlockDef) (gen : Nat) (node : HtmlDiv) :
    Option BlockDataElement :=
  match node.dataType with
  | none => none
  | some dataType =>
    if dataType = "" then none
    else
      match getBlockDefByName reg dataType with
      | none => none
      | some blockDef =>
        match node.dataContent with
        | some j =>
          match blockyNodeFromJsonNode j with
          | .blockNode b => some (cloneWithId b (mkBlockIdStr gen))
          | .elementNode _ =>
            match blockDef.onPasteHandler with
            | some h => h dataType
            | none => none
        | none =>
          match blockDef.onPasteHandler with
          | some h => h dataType
          | none => none

/-! ## The view-layer Editor (editor.ts): old-generation model -/

/-- `TextType` as used by the old editor (editor.ts); the spanner menu
lists Normal/Heading1–3/Checkbox, and the preserved set holds Bulleted. -/
inductive TextType where
  | normal
  | bulleted
  | heading1
  | heading2
  | heading3
  | checkbox
deriving DecidableEq, Repr

/-- `Editor.preservedTextType` (editor.ts 104): the set of text types
whose identity is preserved across Enter — `{TextType.Bulleted}`. -/
def preservedTextType : List TextType := [.bulleted]

/-- Modelled from the spec: the old editor's `TextModel` — a text type
plus rich-text content, held as its insert runs. -/
structure OldTextModel where
  textType : TextType
  ops : Delta
deriving DecidableEq, Repr

/-- Modelled from the spec: `TextModel.length` — the content length. -/
def OldTextModel.length (m : OldTextModel) : Nat := docLength m.ops

/-- Modelled from the spec: `TextModel.insert(pos, content, attrs)` —
splice the content in at the offset (an append when `pos` is at or past
the end, as in the `commitNewLine` rebuild loop). -/
def oldInsertOps (ops : Delta) (pos : Nat) (content : String)
    (attrs : Option Attrs) : Delta :=
  if docLength ops ≤ pos then ops ++ [.insertOp content attrs]
  else sliceDelta ops 0 (some pos) ++ [.insertOp content attrs] ++
    sliceDelta ops pos none

/-- Modelled from the spec: `TextModel.delete(start, len)` — remove the
window `[start, start+len)` of the content. -/
def oldDeleteOps (ops : Delta) (start len : Nat) : Delta :=
  sliceDelta ops 0 (some start) ++ sliceDelta ops (start + len) none

/-- The `commitNewLine` rebuild loop (editor.ts 562–566): insert each
slice at the running offset `ptr` into a fresh model. -/
def buildFromSlices (slices : Delta) : Delta :=
  (slices.foldl
    (fun (acc : Delta × Nat) sl =>
      match sl with
      | .insertOp content attrs =>
        (oldInsertOps acc.1 acc.2 content attrs, acc.2 + content.length)
      | _ => acc)
    ([], 0)).1

/-- A tree node of the old editor's document: a block with its id, its
block-definition index (`BlockData.flags`) and its optional text model. -/
structure OldBlock where
  id : String
  flags : Nat
  data : Option OldTextModel
deriving DecidableEq, Repr

/-- The old editor's cursor state: `{type: "collapsed", targetId, offset}`
or `{type: "open", ...}`. -/
inductive OldCursor where
  | collapsed (targetId : String) (offset : Nat)
  | openCur (startId : String) (startOffset : Nat) (endId : String)
      (endOffset : Nat)
deriving DecidableEq, Repr

/-- The old editor's document state: the root node id, the root's block
children in order, and the cursor. -/
structure OldState where
  rootId : String
  body : List OldBlock
  cursor : Option OldCursor
deriving DecidableEq, Repr

/-- A block definition of the old registry: name and editability
(`editable` defaults to true). -/
structure OldBlockDef where
  name : String
  editable : Bool
deriving DecidableEq, Repr

/-- The registry index assigned to a block name (`BlockData.flags`). -/
def flagsOfBlockName (reg : List OldBlockDef) (name : String) : Nat :=
  reg.findIdx (fun d => d.name = name)

/-- Insert a block right after the sibling with the given id. -/
def insertAfterId : List OldBlock → String → OldBlock → List OldBlock
  | [], _, _ => []
  | b :: rest, afterId, nb =>
    if b.id = afterId then b :: nb :: rest
    else b :: insertAfterId rest afterId nb

/-- The old editor's actions, as dispatched through `applyActions`:
`new-block` and `delete`. -/
inductive OldAction where
  | newBlock (blockName targetId newId afterId : String)
      (data : Option OldTextModel)
  | deleteBlockA (targetId : String)
deriving DecidableEq, Repr

/-- Modelled from the spec: `state.applyActions` — `new-block` inserts a
fresh block after `afterId` under the root, `delete` removes the target. -/
def applyOldAction (reg : List OldBlockDef) (s : OldState) :
    OldAction → OldState
  | .newBlock blockName targetId newId afterId data =>
    if targetId = s.rootId then
      { s with body :=
          insertAfterId s.body afterId ⟨newId, flagsOfBlockName reg blockName, data⟩ }
    else s
  | .deleteBlockA targetId =>
    { s with body := s.body.filter (fun b => b.id ≠ targetId) }

/-- `TextBlockName` as the old editor dispatches it in the `new-block`
action. -/
def textBlockNameOld : String := "text"

/-- Find a block of the old document by id. -/
def findOldBlock (body : List OldBlock) (id : String) : Option OldBlock :=
  body.find? (fun b => b.id = id)

/-- Find a block's index in the old document. -/
def findOldIdx (body : List OldBlock) (id : String) : Option Nat :=
  let i := body.findIdx (fun b => b.id = id)
  if i < body.length then some i else none

/-- `Editor.commitNewLine`, translated from editor.ts 536–593: with a
collapsed cursor on a block holding a text model, take the slices from
the cursor offset, build the new model from them (inheriting the text
type iff it is in `preservedTextType`, else the default `Normal`), delete
the tail of the current model, apply a `new-block` action inserting the
new block after the current one, and set the cursor to offset 0 of the
new block.  Returns the new state and the advanced id-generator state. -/
def commitNewLine (reg : List OldBlockDef) (s : OldState) (gen : Nat) :
    OldState × Nat :=
  match s.cursor with
  | none => (s, gen)
  | some (.openCur _ _ _ _) => (s, gen)
  | some (.collapsed targetId cursorOffset) =>
    match findOldBlock s.body targetId with
    | none => (s, gen)
    | some node =>
      match node.data with
      | none => (s, gen)
      | some textModel =>
        let slices := sliceDelta textModel.ops cursorOffset none
        let newTT :=
          if preservedTextType.contains textModel.textType then textModel.textType
          else TextType.normal
        let newTM : OldTextModel := ⟨newTT, buildFromSlices slices⟩
        let prunedOps :=
          oldDeleteOps textModel.ops cursorOffset (textModel.length - cursorOffset)
        let s1 := { s with body := s.body.map (fun b =>
            if b.id = node.id then { b with data := some ⟨textModel.textType, prunedOps⟩ }
            else b) }
        let newId := mkBlockIdStr gen
        let s2 := applyOldAction reg s1
          (.newBlock textBlockNameOld s.rootId newId node.id (some newTM))
        ({ s2 with cursor := some (.collapsed newId 0) }, gen + 1)

/-- `Editor.deleteBlockOnFocusedCursor`, translated from editor.ts
612–657: with a collapsed cursor whose target passes the syntactic
block-id test and resolves to a node whose block definition is
non-editable, the block is deleted and the cursor moves to the end of the
previous node's text (offset 0 for a non-text previous, cleared when
there is none); in every other case the handler returns `false` and
performs no model mutation. -/
def deleteBlockOnFocusedCursor (reg : List OldBlockDef) (s : OldState) :
    Bool × OldState :=
  match s.cursor with
  | none => (false, s)
  | some (.openCur _ _ _ _) => (false, s)
  | some (.collapsed targetId _offset) =>
    if !isBlockId targetId then (false, s)
    else
      match findOldIdx s.body targetId with
      | none => (false, s)
      | some i =>
        let node := s.body.getD i ⟨"", 0, none⟩
        let prevNode := if i = 0 then none else s.body.get? (i - 1)
        match reg.get? node.flags with
        | none => (false, s)
        | some blockDef =>
          if blockDef.editable then (false, s)
          else
            let s1 := applyOldAction reg s (.deleteBlockA targetId)
            let cur2 :=
              match prevNode with
              | some p =>
                match p.data with
                | some tm => some (OldCursor.collapsed p.id tm.length)
                | none => some (OldCursor.collapsed p.id 0)
              | none => none
            (true, { s1 with cursor := cur2 })

/-- `Editor.handleBackspace`, translated from editor.ts 606–610: run
`deleteBlockOnFocusedCursor`; `preventDefault` (the second component)
exactly when it handled the key. -/
def handleBackspace (reg : List OldBlockDef) (s : OldState) :
    OldState × Bool :=
  let r := deleteBlockOnFocusedCursor reg s
  (r.2, r.1)

/-! ## IME composition (editor.ts 188–195, 492–499) -/

/-- The view state relevant to composition: the `composing` flag, the
model the input diff mutates (abstract), and an instrumentation counter
of how many times the input content-diff has run. -/
structure ViewState (α : Type) where
  composing : Bool
  model : α
  diffCount : Nat
deriving DecidableEq, Repr

/-- The DOM events bound in `Editor.render`. -/
inductive DomEvent where
  | inputEvt
  | compositionstart
  | compositionend
deriving DecidableEq, Repr

/-- The event dispatch translated from editor.ts: the `input` listener
returns early while `composing` (188–194) and otherwise runs the content
diff; `compositionstart` sets the flag (492–494); `compositionend` clears
it and runs the content diff (496–499).  The content diff itself
(`handleContentChanged`) is abstracted as the function `contentDiff`. -/
def handleEvent {α : Type} (contentDiff : α → α) (s : ViewState α) :
    DomEvent → ViewState α
  | .inputEvt =>
    if s.composing then s
    else { s with model := contentDiff s.model, diffCount := s.diffCount + 1 }
  | .compositionstart => { s with composing := true }
  | .compositionend =>
    { composing := false, model := contentDiff s.model,
      diffCount := s.diffCount + 1 }

/-! ## Lemmas: NodeLocation.transform -/

theorem take_cons_drop_of_get? {α : Type} :
    ∀ (l : List α) (i : Nat) (a : α), l.get? i = some a →
      l.take i ++ a :: l.drop (i + 1) = l
  | [], i, a, h => by simp [List.get?] at h
  | x :: xs, 0, a, h => by
    simp [List.get?] at h
    simp [h]
  | x :: xs, i + 1, a, h => by
    simp only [List.get?] at h
    simpa using take_cons_drop_of_get? xs i a h

theorem take_set_of_le {α : Type} :
    ∀ (l : List α) (n i : Nat) (x : α), n ≤ i → (l.set i x).take n = l.take n
  | [], _, _, _, _ => by simp
  | y :: ys, 0, i, x, _ => by simp
  | y :: ys, n + 1, 0, x, h => by omega
  | y :: ys, n + 1, i + 1, x, h => by
    simp only [List.set, List.take]
    rw [take_set_of_le ys n i x (Nat.le_of_succ_le_succ h)]

theorem get?_set_self {α : Type} :
    ∀ (l : List α) (i : Nat) (x : α), i < l.length → (l.set i x).get? i = some x
  | [], i, x, h => by simp at h
  | y :: ys, 0, x, _ => by simp
  | y :: ys, i + 1, x, h => by
    simp only [List.set, List.get?]
    exact get?_set_self ys i x (Nat.lt_of_succ_lt_succ h)

theorem set_of_get? {α : Type} :
    ∀ (l : List α) (i : Nat) (a : α), l.get? i = some a → l.set i a = l
  | [], i, a, h => by simp [List.get?] at h
  | x :: xs, 0, a, h => by
    simp [List.get?] at h
    simp [h]
  | x :: xs, i + 1, a, h => by
    simp only [List.get?] at h
    simp only [List.set]
    rw [set_of_get? xs i a h]

theorem get?_lt_length {α : Type} {l : List α} {i : Nat} {a : α}
    (h : l.get? i = some a) : i < l.length := by
  by_contra hn
  rw [List.get?_eq_none.mpr (Nat.le_of_not_lt hn)] at h
  exact Option.noConfusion h

/-- The full characterization of `NodeLocation.transform`: the result is
`location` with the component at depth `base.length - 1` shifted by
`delta` exactly when `shiftCond` holds, and `location` unchanged in every
other case. -/
theorem transform_characterize (base loc : NodeLoc) (delta : Int) :
    transform base loc delta =
      if shiftCond base loc then shiftAt loc (base.length - 1) delta else loc := by
  unfold transform shiftCond shiftAt
  by_cases h1 : loc.length < base.length
  · have : ¬ base.length ≤ loc.length := Nat.not_le_of_lt h1
    simp [h1, this]
  · simp only [h1, if_false]
    by_cases h2 : base.length = 0 ∨ loc.length = 0
    · have hb0 : base.length = 0 := by
        rcases h2 with h | h
        · exact h
        · omega
      simp [h2, hb0]
    · simp only [h2, if_false]
      have hb1 : 1 ≤ base.length := by omega
      have hble : base.length ≤ loc.length := by omega
      by_cases h3 : base.take (base.length - 1) = loc.take (base.length - 1)
      · simp only [h3, ne_eq, not_true_eq_false, if_false]
        rcases hbg : base.get? (base.length - 1) with _ | pb
        · have : base.length - 1 < base.length := by omega
          rw [List.get?_eq_none] at hbg
          omega
        · rcases hlg : loc.get? (base.length - 1) with _ | pl
          · have : base.length - 1 < loc.length := by omega
            rw [List.get?_eq_none] at hlg
            omega
          · cases pb with
            | str s => simp [hbg, hlg, hb1, hble, h3]
            | num bl =>
              cases pl with
              | str s => simp [hbg, hlg, hb1, hble, h3]
              | num off =>
                have hlt : base.length - 1 < loc.length := by omega
                have hdecomp : loc.take (base.length - 1) ++
                    PathComp.num off :: loc.drop (base.length - 1 + 1) = loc :=
                  take_cons_drop_of_get? loc (base.length - 1) (.num off) hlg
                have hdrop : base.length - 1 + 1 = base.length := by omega
                by_cases h4 : bl ≤ off
                · simp only [hbg, hlg, hb1, hble, h3, h4, decide_True, if_true,
                    Bool.and_self, Bool.and_true, Bool.true_and]
                  rw [List.set_eq_take_cons_drop _ hlt, hdrop]
                  simp
                · have h4f : ¬ (bl ≤ off) := h4
                  simp only [hbg, hlg, hb1, hble, h3, h4f, decide_True,
                    decide_False, if_false, Bool.and_false]
                  rw [if_neg (by simp)]
                  rw [hdrop] at hdecomp
                  conv_rhs => rw [← hdecomp]
                  simp
      · simp [h3]

theorem shiftAt_eq_set {loc : NodeLoc} {i : Nat} {o : Int}
    (h : loc.get? i = some (.num o)) (delta : Int) :
    shiftAt loc i delta = loc.set i (.num (o + delta)) := by
  unfold shiftAt
  rw [h]

theorem shiftCond_iff (b loc : NodeLoc) :
    shiftCond b loc = true ↔
      1 ≤ b.length ∧ b.length ≤ loc.length ∧
      b.take (b.length - 1) = loc.take (b.length - 1) ∧
      ∃ bl off : Int, b.get? (b.length - 1) = some (.num bl) ∧
        loc.get? (b.length - 1) = some (.num off) ∧ bl ≤ off := by
  unfold shiftCond
  rcases hbg : b.get? (b.length - 1) with _ | pb
  · simp [hbg]
  · rcases hlg : loc.get? (b.length - 1) with _ | pl
    · cases pb <;> simp [hbg, hlg]
    · cases pb with
      | str s => simp [hbg, hlg]
      | num bl =>
        cases pl with
        | str s => simp [hbg, hlg]
        | num off => simp [hbg, hlg, and_assoc]

/-- Claim C5: `NodeLocation.transform(base, loc, delta)` returns `loc`
with its index at depth `base.length - 1` shifted by `delta` exactly when
`base` is non-empty and no longer than `loc`, both paths agree strictly
before that depth, both deciding components are numbers and `base`'s last
index is ≤ `loc`'s index there; in every other case (a longer or empty
base, an empty or shorter location, a prefix mismatch, a string component
at the deciding position, or a base index greater than the location's)
the original location is returned unchanged. -/
theorem C5_transform_shifts_iff (base loc : NodeLoc) (delta : Int) :
    transform base loc delta =
      if shiftCond base loc then shiftAt loc (base.length - 1) delta else loc :=
  transform_characterize base loc delta

/-- Claim C6: transforming a location by `+1` against a base and then by
`-1` against the same base is the identity on locations different from
the base (in fact the hypothesis is not needed by the code). -/
theorem C6_transform_inverse (b loc : NodeLoc) (h : loc ≠ b) :
    transform b (transform b loc 1) (-1) = loc := by
  rw [transform_characterize b loc 1]
  by_cases hc : shiftCond b loc
  · obtain ⟨hb1, hble, htake, bl, off, hbg, hlg, hle⟩ := (shiftCond_iff b loc).mp hc
    rw [if_pos hc, shiftAt_eq_set hlg 1]
    have hlt : b.length - 1 < loc.length := get?_lt_length hlg
    have hlg2 : (loc.set (b.length - 1) (PathComp.num (off + 1))).get?
        (b.length - 1) = some (.num (off + 1)) :=
      get?_set_self loc (b.length - 1) _ hlt
    have hc2 : shiftCond b (loc.set (b.length - 1) (PathComp.num (off + 1))) = true := by
      rw [shiftCond_iff]
      refine ⟨hb1, by simpa using hble, ?_, bl, off + 1, hbg, hlg2, by omega⟩
      rw [take_set_of_le loc _ _ _ (Nat.le_refl _)]
      exact htake
    rw [transform_characterize, if_pos hc2, shiftAt_eq_set hlg2 (-1)]
    have harith : off + 1 + (-1 : Int) = off := by omega
    rw [harith, List.set_set]
    exact set_of_get? loc _ _ hlg
  · rw [if_neg hc, transform_characterize, if_neg hc]

/-- Witness for C6 at a concrete input: base `[0]`, location `[2]`. -/
theorem C6_transform_inverse_witness :
    transform [PathComp.num 0] (transform [PathComp.num 0] [PathComp.num 2] 1) (-1) =
      [PathComp.num 2] :=
  C6_transform_inverse [PathComp.num 0] [PathComp.num 2] (by decide)

/-! ## Lemmas: deltas at the level of their attributed character content -/

theorem flatten_append : ∀ (a b : Delta),
    flatten (a ++ b) = flatten a ++ flatten b
  | [], b => rfl
  | op :: rest, b => by
    show opFlat op ++ flatten (rest ++ b) = (opFlat op ++ flatten rest) ++ flatten b
    rw [flatten_append rest b, List.append_assoc]

theorem drop_append_ge {α : Type} (m fr : List α) (a : Nat) (h : m.length ≤ a) :
    (m ++ fr).drop a = fr.drop (a - m.length) := by
  rw [List.drop_append_eq_append_drop, List.drop_of_length_le h, List.nil_append]

theorem drop_append_le {α : Type} (m fr : List α) (a : Nat) (h : a ≤ m.length) :
    (m ++ fr).drop a = m.drop a ++ fr := by
  rw [List.drop_append_eq_append_drop, Nat.sub_eq_zero_of_le h, List.drop_zero]

theorem take_append_ge {α : Type} (m fr : List α) (n : Nat) (h : m.length ≤ n) :
    (m ++ fr).take n = m ++ fr.take (n - m.length) := by
  rw [List.take_append_eq_append_take, List.take_of_length_le h]

theorem take_append_le {α : Type} (m fr : List α) (n : Nat) (h : n ≤ m.length) :
    (m ++ fr).take n = m.take n := by
  rw [List.take_append_eq_append_take, Nat.sub_eq_zero_of_le h, List.take_zero,
    List.append_nil]

theorem isDocB_cons {op : Op} {rest : Delta} (h : isDocB (op :: rest) = true) :
    (∃ s a, op = Op.insertOp s a) ∧ isDocB rest = true := by
  unfold isDocB at h
  rw [List.all_cons, Bool.and_eq_true] at h
  refine ⟨?_, h.2⟩
  cases op with
  | insertOp s a => exact ⟨s, a, rfl⟩
  | retainOp n a => simp at h
  | deleteOp n => simp at h

theorem length_opFlat_insert (s : String) (a : Option Attrs) :
    (opFlat (.insertOp s a)).length = s.length := by
  cases s with
  | mk data => simp [opFlat, String.length]

theorem data_length (s : String) : s.data.length = s.length := by
  cases s with
  | mk data => rfl

theorem flatten_slice_none : ∀ (d : Delta), isDocB d = true → ∀ (a : Nat),
    flatten (sliceDelta d a none) = (flatten d).drop a
  | [], _, a => by simp [sliceDelta, flatten]
  | op :: rest, h, a => by
    obtain ⟨⟨s, at_, rfl⟩, hrest⟩ := isDocB_cons h
    have hl : (opFlat (Op.insertOp s at_)).length = s.length :=
      length_opFlat_insert s at_
    have hsl : opLength (Op.insertOp s at_) = s.length := rfl
    show flatten
        (if opLength (Op.insertOp s at_) ≤ a then
           sliceDelta rest (a - opLength (Op.insertOp s at_)) none
         else opSlice (Op.insertOp s at_) a (opLength (Op.insertOp s at_)) ::
           sliceDelta rest 0 none) =
      (opFlat (Op.insertOp s at_) ++ flatten rest).drop a
    by_cases hla : opLength (Op.insertOp s at_) ≤ a
    · rw [if_pos hla, flatten_slice_none rest hrest,
        drop_append_ge _ _ a (by rw [hl]; rw [hsl] at hla; exact hla)]
      rw [hl, hsl]
    · rw [if_neg hla]
      rw [hsl] at hla
      have hal : a < s.length := Nat.lt_of_not_le hla
      show opFlat (opSlice (Op.insertOp s at_) a (opLength (Op.insertOp s at_))) ++
          flatten (sliceDelta rest 0 none) = _
      rw [flatten_slice_none rest hrest, List.drop_zero,
        drop_append_le _ _ a (by rw [hl]; omega)]
      congr 1
      show ((String.mk ((s.data.drop a).take (opLength (Op.insertOp s at_) - a))).data.map
          (fun c => (c, at_))) = (s.data.map (fun c => (c, at_))).drop a
      show ((s.data.drop a).take (opLength (Op.insertOp s at_) - a)).map
          (fun c => (c, at_)) = (s.data.map (fun c => (c, at_))).drop a
      rw [List.take_of_length_le
        (by rw [List.length_drop, data_length, hsl]),
        List.map_drop]

theorem flatten_slice_some : ∀ (d : Delta), isDocB d = true → ∀ (a st : Nat),
    flatten (sliceDelta d a (some st)) = ((flatten d).drop a).take (st - a)
  | [], _, a, st => by simp [sliceDelta, flatten]
  | op :: rest, h, a, st => by
    obtain ⟨⟨s, at_, rfl⟩, hrest⟩ := isDocB_cons h
    have hl : (opFlat (Op.insertOp s at_)).length = s.length :=
      length_opFlat_insert s at_
    have hsl : opLength (Op.insertOp s at_) = s.length := rfl
    show flatten
        (if st ≤ a then []
         else if opLength (Op.insertOp s at_) ≤ a then
           sliceDelta rest (a - opLength (Op.insertOp s at_))
             (some (st - opLength (Op.insertOp s at_)))
         else opSlice (Op.insertOp s at_) a (min st (opLength (Op.insertOp s at_))) ::
           sliceDelta rest 0 (some (st - opLength (Op.insertOp s at_)))) =
      ((opFlat (Op.insertOp s at_) ++ flatten rest).drop a).take (st - a)
    by_cases hst : st ≤ a
    · rw [if_pos hst]
      have hz : st - a = 0 := by omega
      rw [hz]
      simp [flatten]
    · rw [if_neg hst]
      by_cases hla : opLength (Op.insertOp s at_) ≤ a
      · rw [if_pos hla, flatten_slice_some rest hrest,
          drop_append_ge _ _ a (by rw [hl]; rw [hsl] at hla; exact hla), hl, hsl]
        rw [hsl] at hla
        have harith : st - s.length - (a - s.length) = st - a := by omega
        rw [harith]
      · rw [if_neg hla]
        rw [hsl] at hla
        have hal : a < s.length := Nat.lt_of_not_le hla
        show opFlat (opSlice (Op.insertOp s at_) a (min st (opLength (Op.insertOp s at_)))) ++
            flatten (sliceDelta rest 0 (some (st - opLength (Op.insertOp s at_)))) = _
        rw [flatten_slice_some rest hrest, List.drop_zero, Nat.sub_zero,
          drop_append_le _ _ a (by rw [hl]; omega),
          List.take_append_eq_append_take, List.length_drop, hl]
        have harith : st - a - (s.length - a) = st - s.length := by omega
        rw [harith, hsl]
        congr 1
        show ((s.data.drop a).take (min st s.length - a)).map
            (fun c => (c, at_)) = ((s.data.map (fun c => (c, at_))).drop a).take (st - a)
        rw [← List.map_drop, ← List.map_take]
        congr 1
        rcases le_or_lt st s.length with hc | hc
        · rw [Nat.min_eq_left hc]
        · rw [Nat.min_eq_right (Nat.le_of_lt hc),
            List.take_of_length_le (by rw [List.length_drop, data_length]),
            List.take_of_length_le (by rw [List.length_drop, data_length] <;> omega)]

theorem isDocB_append {a b : Delta} (ha : isDocB a = true) (hb : isDocB b = true) :
    isDocB (a ++ b) = true := by
  unfold isDocB at ha hb ⊢
  rw [List.all_append, ha, hb]
  rfl

theorem isDocB_slice : ∀ (d : Delta), isDocB d = true → ∀ (a : Nat) (st : Option Nat),
    isDocB (sliceDelta d a st) = true
  | [], _, a, st => by simp [sliceDelta, isDocB]
  | op :: rest, h, a, st => by
    obtain ⟨⟨s, at_, rfl⟩, hrest⟩ := isDocB_cons h
    unfold sliceDelta
    cases st with
    | none =>
      by_cases hla : opLength (Op.insertOp s at_) ≤ a
      · simp only [hla, if_true]
        exact isDocB_slice rest hrest _ none
      · simp only [hla, if_false]
        have := isDocB_slice rest hrest 0 none
        unfold isDocB at this ⊢
        rw [List.all_cons, this]
        simp [opSlice]
    | some st =>
      by_cases hst : st ≤ a
      · simp [hst, isDocB]
      · simp only [hst, if_false]
        by_cases hla : opLength (Op.insertOp s at_) ≤ a
        · simp only [hla, if_true]
          exact isDocB_slice rest hrest _ _
        · simp only [hla, if_false]
          have := isDocB_slice rest hrest 0 (some (st - opLength (Op.insertOp s at_)))
          unfold isDocB at this ⊢
          rw [List.all_cons, this]
          simp [opSlice]

theorem flatten_apply_inserts : ∀ (edit : Delta), isDocB edit = true →
    ∀ (doc : Delta), flatten (applyDelta doc edit) = flatten edit ++ flatten doc
  | [], _, doc => by simp [applyDelta, flatten]
  | op :: rest, h, doc => by
    obtain ⟨⟨s, at_, rfl⟩, hrest⟩ := isDocB_cons h
    show flatten (Op.insertOp s at_ :: applyDelta doc rest) = _
    show opFlat (Op.insertOp s at_) ++ flatten (applyDelta doc rest) = _
    rw [flatten_apply_inserts rest hrest doc]
    show _ = (opFlat (Op.insertOp s at_) ++ flatten rest) ++ flatten doc
    rw [List.append_assoc]

theorem isDocB_applyAttrsTo (a : Attrs) : ∀ (d : Delta), isDocB d = true →
    isDocB (applyAttrsTo a d) = true
  | [], _ => rfl
  | op :: rest, h => by
    obtain ⟨⟨s, at_, rfl⟩, hrest⟩ := isDocB_cons h
    show isDocB (Op.insertOp s (applyAttrPair a at_) :: applyAttrsTo a rest) = true
    unfold isDocB
    rw [List.all_cons]
    have := isDocB_applyAttrsTo a rest hrest
    unfold isDocB at this
    rw [this]
    rfl

theorem isDocB_applyDelta : ∀ (edit : Delta) (doc : Delta), isDocB doc = true →
    isDocB (applyDelta doc edit) = true
  | [], _, h => h
  | .insertOp s a :: rest, doc, h => by
    show isDocB (Op.insertOp s a :: applyDelta doc rest) = true
    unfold isDocB
    rw [List.all_cons]
    have := isDocB_applyDelta rest doc h
    unfold isDocB at this
    rw [this]
    rfl
  | .retainOp n none :: rest, doc, h =>
    isDocB_append (isDocB_slice doc h 0 (some n))
      (isDocB_applyDelta rest _ (isDocB_slice doc h n none))
  | .retainOp n (some a) :: rest, doc, h =>
    isDocB_append (isDocB_applyAttrsTo a _ (isDocB_slice doc h 0 (some n)))
      (isDocB_applyDelta rest _ (isDocB_slice doc h n none))
  | .deleteOp n :: rest, doc, h =>
    isDocB_applyDelta rest _ (isDocB_slice doc h n none)

/-- The delta built by `retain(s).delete(k)`, applied to document content:
keep the first `s` characters and everything from `s + k` on. -/
theorem flatten_apply_retain_delete (doc : Delta) (hdoc : isDocB doc = true)
    (s k : Nat) :
    flatten (applyDelta doc (dDelete (dRetain [] s none) k)) =
      (flatten doc).take s ++ (flatten doc).drop (s + k) := by
  by_cases hs : s = 0
  · subst hs
    by_cases hk : k = 0
    · subst hk
      simp [dRetain, dDelete, applyDelta]
    · show flatten (applyDelta doc (dDelete [] k)) = _
      rw [show dDelete [] k = [.deleteOp k] from by simp [dDelete, pushOp, hk]]
      show flatten (applyDelta (sliceDelta doc k none) []) = _
      show flatten (sliceDelta doc k none) = _
      rw [flatten_slice_none doc hdoc k]
      simp
  · have hret : dRetain [] s none = [.retainOp s none] := by
      simp [dRetain, pushOp, normAttrs, hs]
    by_cases hk : k = 0
    · subst hk
      rw [show dDelete (dRetain [] s none) 0 = [.retainOp s none] from by
        simp [dDelete, hret]]
      show flatten (sliceDelta doc 0 (some s) ++ applyDelta (sliceDelta doc s none) []) = _
      rw [flatten_append]
      show flatten (sliceDelta doc 0 (some s)) ++ flatten (sliceDelta doc s none) = _
      rw [flatten_slice_none doc hdoc s, flatten_slice_some doc hdoc 0 s]
      simp
    · rw [show dDelete (dRetain [] s none) k = [.retainOp s none, .deleteOp k] from by
        simp [dDelete, hret, pushOp, hk]]
      show flatten (sliceDelta doc 0 (some s) ++
        applyDelta (sliceDelta doc s none) [.deleteOp k]) = _
      rw [flatten_append]
      show flatten (sliceDelta doc 0 (some s)) ++
        flatten (applyDelta (sliceDelta (sliceDelta doc s none) k none) []) = _
      show flatten (sliceDelta doc 0 (some s)) ++
        flatten (sliceDelta (sliceDelta doc s none) k none) = _
      rw [flatten_slice_some doc hdoc 0 s,
        flatten_slice_none _ (isDocB_slice doc hdoc s none) k,
        flatten_slice_none doc hdoc s]
      simp [List.drop_drop]

/-- The delta built by `retain(s).concat(tail)` for an insert-only tail,
applied to document content: keep the first `s` characters, splice in the
tail, keep the remainder. -/
theorem flatten_apply_retain_concat (doc : Delta) (hdoc : isDocB doc = true)
    (s : Nat) (tail : Delta) (htail : isDocB tail = true) :
    flatten (applyDelta doc (dConcat (dRetain [] s none) tail)) =
      (flatten doc).take s ++ flatten tail ++ (flatten doc).drop s := by
  cases tail with
  | nil =>
    show flatten (applyDelta doc (dRetain [] s none)) = _
    by_cases hs : s = 0
    · subst hs
      simp [dRetain, applyDelta, flatten]
    · rw [show dRetain [] s none = [.retainOp s none] from by
        simp [dRetain, pushOp, normAttrs, hs]]
      show flatten (sliceDelta doc 0 (some s) ++ applyDelta (sliceDelta doc s none) []) = _
      rw [flatten_append]
      show flatten (sliceDelta doc 0 (some s)) ++ flatten (sliceDelta doc s none) = _
      rw [flatten_slice_none doc hdoc s, flatten_slice_some doc hdoc 0 s]
      simp [flatten]
  | cons t0 ts =>
    obtain ⟨⟨s0, a0, rfl⟩, hts⟩ := isDocB_cons htail
    by_cases hs : s = 0
    · subst hs
      show flatten (applyDelta doc (pushOp (dRetain [] 0 none) (Op.insertOp s0 a0) ++ ts)) = _
      rw [show pushOp (dRetain [] 0 none) (Op.insertOp s0 a0) ++ ts =
          Op.insertOp s0 a0 :: ts from by simp [dRetain, pushOp]]
      rw [flatten_apply_inserts _ htail doc]
      simp [List.append_assoc]
    · show flatten (applyDelta doc (pushOp (dRetain [] s none) (Op.insertOp s0 a0) ++ ts)) = _
      rw [show pushOp (dRetain [] s none) (Op.insertOp s0 a0) ++ ts =
          Op.retainOp s none :: Op.insertOp s0 a0 :: ts from by
        simp [dRetain, pushOp, normAttrs, hs]]
      show flatten (sliceDelta doc 0 (some s) ++
        applyDelta (sliceDelta doc s none) (Op.insertOp s0 a0 :: ts)) = _
      rw [flatten_append, flatten_apply_inserts _ htail,
        flatten_slice_some doc hdoc 0 s, flatten_slice_none doc hdoc s]
      simp [List.append_assoc]

/-! ## Lemmas: finding, traversing and editing blocks by id -/

theorem find_first {pre rest : List BlockDataElement} {bid : String}
    {b : BlockDataElement} (hb : b.id = bid) (hpre : ∀ x ∈ pre, x.id ≠ bid) :
    List.find? (fun x => x.id = bid) (pre ++ b :: rest) = some b := by
  induction pre with
  | nil =>
    rw [List.nil_append]
    exact List.find?_cons_of_pos _ (by simp [hb])
  | cons p ps ih =>
    rw [List.cons_append, List.find?_cons_of_neg _ (by simp [hpre p (by simp)])]
    exact ih (fun x hx => hpre x (by simp [hx]))

theorem dropWhile_first {pre rest : List BlockDataElement} {bid : String}
    {b : BlockDataElement} (hb : b.id = bid) (hpre : ∀ x ∈ pre, x.id ≠ bid) :
    List.dropWhile (fun x => x.id ≠ bid) (pre ++ b :: rest) = b :: rest := by
  induction pre with
  | nil =>
    rw [List.nil_append, List.dropWhile_cons]
    simp [hb]
  | cons p ps ih =>
    rw [List.cons_append, List.dropWhile_cons,
      if_pos (by simp [hpre p (by simp)])]
    exact ih (fun x hx => hpre x (by simp [hx]))

theorem filter_nohit (l : List BlockDataElement) (bid : String)
    (h : ∀ x ∈ l, x.id ≠ bid) : l.filter (fun b => b.id ≠ bid) = l := by
  induction l with
  | nil => rfl
  | cons a t ih =>
    rw [List.filter_cons, if_pos (by simp [h a (by simp)])]
    rw [ih (fun x hx => h x (by simp [hx]))]

theorem map_update_nohit (l : List BlockDataElement) (bid : String)
    (g : BlockDataElement → BlockDataElement) (h : ∀ x ∈ l, x.id ≠ bid) :
    l.map (fun b => if b.id = bid then g b else b) = l := by
  induction l with
  | nil => rfl
  | cons a t ih =>
    rw [List.map_cons, if_neg (h a (by simp)), ih (fun x hx => h x (by simp [hx]))]

theorem applyCOp_remove_decomp (pre post : List BlockDataElement)
    (m : BlockDataElement) (hpre : ∀ x ∈ pre, x.id ≠ m.id)
    (hpost : ∀ x ∈ post, x.id ≠ m.id) :
    applyCOp (pre ++ m :: post) (.removeNodeOp m.id) = pre ++ post := by
  show (pre ++ m :: post).filter (fun b => b.id ≠ m.id) = pre ++ post
  rw [List.filter_append, filter_nohit pre _ hpre, List.filter_cons,
    if_neg (by simp), filter_nohit post _ hpost]

theorem applyCOp_textEdit_decomp (pre post : List BlockDataElement)
    (b0 : BlockDataElement) (d : Delta) (hpre : ∀ x ∈ pre, x.id ≠ b0.id)
    (hpost : ∀ x ∈ post, x.id ≠ b0.id) :
    applyCOp (pre ++ b0 :: post) (.textEditOp b0.id d) =
      pre ++ { b0 with text := b0.text.map (fun t => applyDelta t d) } :: post := by
  show (pre ++ b0 :: post).map
      (fun b => if b.id = b0.id then
        { b with text := b.text.map (fun t => applyDelta t d) } else b) = _
  rw [List.map_append, List.map_cons,
    map_update_nohit pre _ _ hpre, map_update_nohit post _ _ hpost, if_pos rfl]

theorem fold_removals : ∀ (mid pre2 post2 : List BlockDataElement)
    (restOps : List COp),
    (∀ m ∈ mid, ∀ x ∈ pre2, x.id ≠ m.id) →
    (∀ m ∈ mid, ∀ x ∈ post2, x.id ≠ m.id) →
    (mid.map BlockDataElement.id).Nodup →
    List.foldl applyCOp (pre2 ++ mid ++ post2)
      (mid.map (fun m => COp.removeNodeOp m.id) ++ restOps) =
    List.foldl applyCOp (pre2 ++ post2) restOps
  | [], pre2, post2, restOps, _, _, _ => by simp
  | m :: mid', pre2, post2, restOps, h1, h2, h3 => by
    rw [List.map_cons, List.nodup_cons] at h3
    have hmid' : ∀ x ∈ mid', x.id ≠ m.id := by
      intro x hx heq
      exact h3.1 (heq ▸ List.mem_map_of_mem BlockDataElement.id hx)
    show List.foldl applyCOp (pre2 ++ (m :: mid') ++ post2)
        (COp.removeNodeOp m.id :: (List.map _ mid' ++ restOps)) = _
    rw [List.foldl_cons]
    have hstep : applyCOp (pre2 ++ (m :: mid') ++ post2) (COp.removeNodeOp m.id) =
        pre2 ++ mid' ++ post2 := by
      have := applyCOp_remove_decomp pre2 (mid' ++ post2) m (h1 m (by simp))
        (by
          intro x hx
          rcases List.mem_append.mp hx with hx | hx
          · exact hmid' x hx
          · exact h2 m (by simp) x hx)
      simp only [List.append_assoc, List.cons_append] at this ⊢
      exact this
    rw [hstep]
    exact fold_removals mid' pre2 post2 restOps
      (fun q hq x hx => h1 q (by simp [hq]) x hx)
      (fun q hq x hx => h2 q (by simp [hq]) x hx) h3.2

/-- Unpacking the id-uniqueness invariant over the decomposed body. -/
theorem c1_id_facts (pre mid post : List BlockDataElement) (bs be : BlockDataElement)
    (hN : ((pre ++ bs :: mid ++ be :: post).map BlockDataElement.id).Nodup) :
    (∀ x ∈ pre, x.id ≠ bs.id) ∧ (∀ x ∈ pre, x.id ≠ be.id) ∧
    bs.id ≠ be.id ∧ (∀ m ∈ mid, m.id ≠ bs.id) ∧ (∀ m ∈ mid, m.id ≠ be.id) ∧
    (∀ x ∈ post, x.id ≠ bs.id) ∧ (∀ x ∈ post, x.id ≠ be.id) ∧
    (∀ m ∈ mid, ∀ x ∈ pre, x.id ≠ m.id) ∧ (∀ m ∈ mid, ∀ x ∈ post, x.id ≠ m.id) ∧
    (mid.map BlockDataElement.id).Nodup := by
  simp only [List.map_append, List.map_cons] at hN
  rw [List.nodup_append] at hN
  obtain ⟨hL, hR, hdisj⟩ := hN
  rw [List.nodup_append] at hL
  obtain ⟨hp, hbsmid, hdisjpm⟩ := hL
  rw [List.nodup_cons] at hbsmid hR
  have memPre : ∀ x ∈ pre, x.id ∈ pre.map BlockDataElement.id :=
    fun x hx => List.mem_map_of_mem _ hx
  have memMid : ∀ m ∈ mid, m.id ∈ mid.map BlockDataElement.id :=
    fun m hm => List.mem_map_of_mem _ hm
  have memPost : ∀ x ∈ post, x.id ∈ post.map BlockDataElement.id :=
    fun x hx => List.mem_map_of_mem _ hx
  have memLpre : ∀ x ∈ pre, x.id ∈
      pre.map BlockDataElement.id ++ bs.id :: mid.map BlockDataElement.id :=
    fun x hx => List.mem_append.mpr (Or.inl (memPre x hx))
  have memLbs : bs.id ∈
      pre.map BlockDataElement.id ++ bs.id :: mid.map BlockDataElement.id :=
    List.mem_append.mpr (Or.inr (by simp))
  have memLmid : ∀ m ∈ mid, m.id ∈
      pre.map BlockDataElement.id ++ bs.id :: mid.map BlockDataElement.id :=
    fun m hm => List.mem_append.mpr (Or.inr (by simp [memMid m hm]))
  refine ⟨?_, ?_, ?_, ?_, ?_, ?_, ?_, ?_, ?_, hbsmid.2⟩
  · intro x hx heq
    exact hdisjpm (memPre x hx) (by rw [heq]; simp)
  · intro x hx heq
    exact hdisj (memLpre x hx) (by rw [heq]; simp)
  · intro heq
    exact hdisj memLbs (by rw [heq]; simp)
  · intro m hm heq
    exact hbsmid.1 (by rw [← heq]; exact memMid m hm)
  · intro m hm heq
    exact hdisj (memLmid m hm) (by rw [heq]; simp)
  · intro x hx heq
    exact hdisj memLbs (by rw [← heq]; simp [memPost x hx])
  · intro x hx heq
    exact hR.1 (by rw [← heq]; exact memPost x hx)
  · intro m hm x hx heq
    exact hdisjpm (memPre x hx) (by rw [heq]; simp [memMid m hm])
  · intro m hm x hx heq
    exact hdisj (memLmid m hm) (by rw [← heq]; simp [memPost x hx])

/-! ## Lemmas: the open-range delete loop -/

theorem deleteRangeLoop_mid (c : CursorState) (bs be : BlockDataElement)
    (post : List BlockDataElement) (hbe : isTextLike be = true)
    (hne : bs.id ≠ be.id) :
    ∀ (mid : List BlockDataElement) (cs : Changeset),
      (∀ m ∈ mid, m.id ≠ bs.id) → (∀ m ∈ mid, m.id ≠ be.id) →
      deleteRangeLoop c bs be (mid ++ be :: post) cs =
        ⟨cs.ops ++ mid.map (fun m => COp.removeNodeOp m.id) ++
          [COp.textEditOp bs.id (dConcat (dRetain [] c.startOffset none)
            (sliceDelta (be.text.getD []) c.endOffset none)),
           COp.removeNodeOp be.id],
         cs.afterCursor⟩
  | [], cs, _, _ => by
    rw [List.nil_append]
    show (if be.id = be.id then _ else _) = _
    rw [if_pos rfl]
    simp only [deleteRangeLoop]
    rw [if_neg (by simp [Ne.symm hne]), if_pos (by simp [hbe])]
    simp [Changeset.textEdit, Changeset.removeNode]
  | m :: mid', cs, h1, h2 => by
    rw [List.cons_append]
    show (if m.id = be.id then _ else _) = _
    rw [if_neg (h2 m (by simp))]
    simp only [deleteRangeLoop]
    rw [if_neg (by simp [h1 m (by simp)]), if_neg (by simp [h2 m (by simp)])]
    rw [deleteRangeLoop_mid c bs be post hbe hne mid' _
      (fun q hq => h1 q (by simp [hq])) (fun q hq => h2 q (by simp [hq]))]
    simp [Changeset.removeNode, List.append_assoc]

theorem deleteRangeLoop_full (c : CursorState) (bs be : BlockDataElement)
    (mid post : List BlockDataElement) (hbs : isTextLike bs = true)
    (hbe : isTextLike be = true) (hne : bs.id ≠ be.id)
    (h1 : ∀ m ∈ mid, m.id ≠ bs.id) (h2 : ∀ m ∈ mid, m.id ≠ be.id) :
    deleteRangeLoop c bs be (bs :: mid ++ be :: post) Changeset.empty =
      ⟨COp.textEditOp bs.id (dDelete (dRetain [] c.startOffset none)
          (docLength (bs.text.getD []) - c.startOffset)) ::
        mid.map (fun m => COp.removeNodeOp m.id) ++
        [COp.textEditOp bs.id (dConcat (dRetain [] c.startOffset none)
          (sliceDelta (be.text.getD []) c.endOffset none)),
         COp.removeNodeOp be.id],
       some (CursorState.collapse bs.id c.startOffset)⟩ := by
  show (if bs.id = be.id then _ else _) = _
  rw [if_neg hne]
  simp only [deleteRangeLoop]
  rw [if_pos (by simp [hbs])]
  rw [show mid.append (be :: post) = mid ++ be :: post from rfl]
  rw [deleteRangeLoop_mid c bs be post hbe hne mid _ h1 h2]
  simp [Changeset.textEdit, Changeset.setCursorState, Changeset.empty]

/-- Claim C1: open-range delete across distinct text-like blocks.  For an
open cursor from `(bs, so)` to `(be, eo)` over a body
`pre ++ [bs] ++ mid ++ [be] ++ post` with unique ids and text-like start
and end blocks, `deleteContentInsideInSelection` leaves the start block
holding `[0, so)` of its own text followed by the tail of the end block's
text from `eo`, removes the end block and every block strictly between,
collapses the cursor at `(bs.id, so)` (also returning it), and bumps the
version once. -/
theorem C1_open_range_delete (s : EditorState) (pre mid post : List BlockDataElement)
    (bs be : BlockDataElement) (tmS tmE : Delta) (so eo : Nat)
    (hbody : s.body = pre ++ bs :: mid ++ be :: post)
    (hN : (s.body.map BlockDataElement.id).Nodup)
    (hs : bs.text = some tmS) (he : be.text = some tmE)
    (hds : isDocB tmS = true) (hde : isDocB tmE = true) :
    ∃ newOps : Delta,
      (deleteContentInsideInSelection s ⟨bs.id, so, be.id, eo⟩).1 =
        ⟨pre ++ ⟨bs.t, bs.id, some newOps⟩ :: post,
         some (CursorState.collapse bs.id so), s.version + 1⟩ ∧
      (deleteContentInsideInSelection s ⟨bs.id, so, be.id, eo⟩).2 =
        some (CursorState.collapse bs.id so) ∧
      flatten newOps = (flatten tmS).take so ++ (flatten tmE).drop eo := by
  obtain ⟨f1, f2, f5, f3, f4, f6, f7, f8, f10, f9⟩ :=
    c1_id_facts pre mid post bs be (hbody ▸ hN)
  have hbody' : s.body = pre ++ bs :: (mid ++ be :: post) := by
    rw [hbody]
    simp
  have hbs : isTextLike bs = true := by
    unfold isTextLike
    rw [hs]
    rfl
  have hbe : isTextLike be = true := by
    unfold isTextLike
    rw [he]
    rfl
  have hfindS : s.getBlockElementById bs.id = some bs := by
    unfold EditorState.getBlockElementById
    rw [hbody']
    exact find_first rfl f1
  have hfindE : s.getBlockElementById be.id = some be := by
    unfold EditorState.getBlockElementById
    rw [hbody]
    exact find_first rfl (by
      intro x hx
      rcases List.mem_append.mp hx with hx | hx
      · exact f2 x hx
      · rcases List.mem_cons.mp hx with rfl | hx
        · exact f5
        · exact f4 x hx)
  have hdrop2 : s.body.dropWhile (fun b => b.id ≠ bs.id) = bs :: (mid ++ be :: post) := by
    rw [hbody']
    exact dropWhile_first rfl f1
  have hloop : deleteRangeLoop ⟨bs.id, so, be.id, eo⟩ bs be
      (bs :: (mid ++ be :: post)) Changeset.empty =
      ⟨COp.textEditOp bs.id (dDelete (dRetain [] so none) (docLength tmS - so)) ::
        mid.map (fun m => COp.removeNodeOp m.id) ++
        [COp.textEditOp bs.id (dConcat (dRetain [] so none) (sliceDelta tmE eo none)),
         COp.removeNodeOp be.id],
       some (CursorState.collapse bs.id so)⟩ := by
    have := deleteRangeLoop_full ⟨bs.id, so, be.id, eo⟩ bs be mid post hbs hbe f5 f3 f4
    simp only [List.cons_append] at this
    rw [this, hs, he]
    rfl
  have hpost1 : ∀ x ∈ mid ++ be :: post, x.id ≠ bs.id := by
    intro x hx
    rcases List.mem_append.mp hx with hx | hx
    · exact f3 x hx
    · rcases List.mem_cons.mp hx with rfl | hx
      · exact Ne.symm f5
      · exact f6 x hx
  have hstep1 : applyCOp (pre ++ bs :: (mid ++ be :: post))
      (COp.textEditOp bs.id (dDelete (dRetain [] so none) (docLength tmS - so))) =
      pre ++ (⟨bs.t, bs.id, some (applyDelta tmS
        (dDelete (dRetain [] so none) (docLength tmS - so)))⟩ : BlockDataElement) ::
        (mid ++ be :: post) := by
    have := applyCOp_textEdit_decomp pre (mid ++ be :: post) bs
      (dDelete (dRetain [] so none) (docLength tmS - so)) f1 hpost1
    rw [hs] at this
    simpa using this
  have hfold : List.foldl applyCOp s.body
      (COp.textEditOp bs.id (dDelete (dRetain [] so none) (docLength tmS - so)) ::
        mid.map (fun m => COp.removeNodeOp m.id) ++
        [COp.textEditOp bs.id (dConcat (dRetain [] so none) (sliceDelta tmE eo none)),
         COp.removeNodeOp be.id]) =
      pre ++ (⟨bs.t, bs.id, some (applyDelta
        (applyDelta tmS (dDelete (dRetain [] so none) (docLength tmS - so)))
        (dConcat (dRetain [] so none) (sliceDelta tmE eo none)))⟩ : BlockDataElement) ::
        post := by
    rw [hbody']
    simp only [List.cons_append]
    rw [List.foldl_cons, hstep1]
    rw [show pre ++ (⟨bs.t, bs.id, some (applyDelta tmS
        (dDelete (dRetain [] so none) (docLength tmS - so)))⟩ : BlockDataElement) ::
        (mid ++ be :: post) =
      (pre ++ [⟨bs.t, bs.id, some (applyDelta tmS
        (dDelete (dRetain [] so none) (docLength tmS - so)))⟩]) ++ mid ++ (be :: post)
      from by simp]
    rw [fold_removals mid _ (be :: post) _
      (by
        intro m hm x hx
        rcases List.mem_append.mp hx with hx | hx
        · exact f8 m hm x hx
        · rcases List.mem_cons.mp hx with rfl | hx
          · exact Ne.symm (f3 m hm)
          · simp at hx)
      (by
        intro m hm x hx
        rcases List.mem_cons.mp hx with rfl | hx
        · exact Ne.symm (f4 m hm)
        · exact f10 m hm x hx)
      f9]
    rw [show ((pre ++ [(⟨bs.t, bs.id, some (applyDelta tmS
        (dDelete (dRetain [] so none) (docLength tmS - so)))⟩ : BlockDataElement)]) ++
        (be :: post)) =
      pre ++ (⟨bs.t, bs.id, some (applyDelta tmS
        (dDelete (dRetain [] so none) (docLength tmS - so)))⟩ : BlockDataElement) ::
        (be :: post) from by simp]
    rw [List.foldl_cons]
    have hstep2 := applyCOp_textEdit_decomp pre (be :: post)
      (⟨bs.t, bs.id, some (applyDelta tmS
        (dDelete (dRetain [] so none) (docLength tmS - so)))⟩ : BlockDataElement)
      (dConcat (dRetain [] so none) (sliceDelta tmE eo none)) f1
      (by
        intro x hx
        rcases List.mem_cons.mp hx with rfl | hx
        · exact Ne.symm f5
        · exact f6 x hx)
    simp only [Option.map_some'] at hstep2
    rw [hstep2]
    rw [show pre ++ (⟨bs.t, bs.id, some (applyDelta
        (applyDelta tmS (dDelete (dRetain [] so none) (docLength tmS - so)))
        (dConcat (dRetain [] so none) (sliceDelta tmE eo none)))⟩ : BlockDataElement) ::
        (be :: post) =
      (pre ++ [⟨bs.t, bs.id, some (applyDelta
        (applyDelta tmS (dDelete (dRetain [] so none) (docLength tmS - so)))
        (dConcat (dRetain [] so none) (sliceDelta tmE eo none)))⟩]) ++ be :: post
      from by simp]
    rw [List.foldl_cons]
    rw [applyCOp_remove_decomp _ post be
      (by
        intro x hx
        rcases List.mem_append.mp hx with hx | hx
        · exact f2 x hx
        · rcases List.mem_cons.mp hx with rfl | hx
          · exact f5
          · simp at hx)
      f7]
    rw [List.foldl_nil]
    simp
  have hflat1 : flatten (applyDelta tmS
      (dDelete (dRetain [] so none) (docLength tmS - so))) = (flatten tmS).take so := by
    rw [flatten_apply_retain_delete tmS hds so (docLength tmS - so)]
    rw [List.drop_of_length_le (by
      show (flatten tmS).length ≤ so + (docLength tmS - so)
      unfold docLength
      omega)]
    rw [List.append_nil]
  have hflat : flatten (applyDelta
      (applyDelta tmS (dDelete (dRetain [] so none) (docLength tmS - so)))
      (dConcat (dRetain [] so none) (sliceDelta tmE eo none))) =
      (flatten tmS).take so ++ (flatten tmE).drop eo := by
    rw [flatten_apply_retain_concat _
      (isDocB_applyDelta _ tmS hds) so _ (isDocB_slice tmE hde eo none)]
    rw [flatten_slice_none tmE hde eo, hflat1]
    rw [List.take_take, Nat.min_self]
    rw [List.drop_of_length_le (show ((flatten tmS).take so).length ≤ so from by
      rw [List.length_take]
      omega)]
    rw [List.append_nil]
  refine ⟨applyDelta
      (applyDelta tmS (dDelete (dRetain [] so none) (docLength tmS - so)))
      (dConcat (dRetain [] so none) (sliceDelta tmE eo none)), ?_, ?_, hflat⟩
  · show (deleteContentInsideInSelection s ⟨bs.id, so, be.id, eo⟩).1 = _
    unfold deleteContentInsideInSelection
    rw [if_neg (show ¬ ((⟨bs.id, so, be.id, eo⟩ : CursorState).startId =
      (⟨bs.id, so, be.id, eo⟩ : CursorState).endId) from f5)]
    rw [show (⟨bs.id, so, be.id, eo⟩ : CursorState).startId = bs.id from rfl,
      show (⟨bs.id, so, be.id, eo⟩ : CursorState).endId = be.id from rfl,
      hfindS, hfindE]
    show (applyChangeset s (deleteRangeLoop ⟨bs.id, so, be.id, eo⟩ bs be
        (s.body.dropWhile (fun b => b.id ≠ bs.id)) Changeset.empty) false) = _
    rw [hdrop2, hloop]
    unfold applyChangeset
    dsimp only
    rw [hfold]
  · show (deleteContentInsideInSelection s ⟨bs.id, so, be.id, eo⟩).2 = _
    unfold deleteContentInsideInSelection
    rw [if_neg (show ¬ ((⟨bs.id, so, be.id, eo⟩ : CursorState).startId =
      (⟨bs.id, so, be.id, eo⟩ : CursorState).endId) from f5)]
    rw [show (⟨bs.id, so, be.id, eo⟩ : CursorState).startId = bs.id from rfl,
      show (⟨bs.id, so, be.id, eo⟩ : CursorState).endId = be.id from rfl,
      hfindS, hfindE]
    show (deleteRangeLoop ⟨bs.id, so, be.id, eo⟩ bs be
        (s.body.dropWhile (fun b => b.id ≠ bs.id)) Changeset.empty).afterCursor = _
    rw [hdrop2, hloop]

/-- Witness for C1 at the spec's concrete scenario: blocks
`foo`/`bar`/`baz`, open cursor `(b1,1)`–`(b3,2)`; afterwards only `b1`
remains, its text flattens to `"f" ++ "z"`, and the cursor collapses at
`(b1, 1)`. -/
theorem C1_open_range_delete_witness :
    ∃ newOps : Delta,
      (deleteContentInsideInSelection
        ⟨[⟨"Text", "blk-1", some [.insertOp "foo" none]⟩,
          ⟨"Text", "blk-2", some [.insertOp "bar" none]⟩,
          ⟨"Text", "blk-3", some [.insertOp "baz" none]⟩], none, 0⟩
        ⟨"blk-1", 1, "blk-3", 2⟩).1 =
        ⟨[⟨"Text", "blk-1", some newOps⟩],
         some (CursorState.collapse "blk-1" 1), 0 + 1⟩ ∧
      (deleteContentInsideInSelection
        ⟨[⟨"Text", "blk-1", some [.insertOp "foo" none]⟩,
          ⟨"Text", "blk-2", some [.insertOp "bar" none]⟩,
          ⟨"Text", "blk-3", some [.insertOp "baz" none]⟩], none, 0⟩
        ⟨"blk-1", 1, "blk-3", 2⟩).2 =
        some (CursorState.collapse "blk-1" 1) ∧
      flatten newOps =
        (flatten [.insertOp "foo" none]).take 1 ++
        (flatten [.insertOp "baz" none]).drop 2 :=
  C1_open_range_delete
    ⟨[⟨"Text", "blk-1", some [.insertOp "foo" none]⟩,
      ⟨"Text", "blk-2", some [.insertOp "bar" none]⟩,
      ⟨"Text", "blk-3", some [.insertOp "baz" none]⟩], none, 0⟩
    [] [⟨"Text", "blk-2", some [.insertOp "bar" none]⟩] []
    ⟨"Text", "blk-1", some [.insertOp "foo" none]⟩
    ⟨"Text", "blk-3", some [.insertOp "baz" none]⟩
    [.insertOp "foo" none] [.insertOp "baz" none] 1 2
    rfl (by decide) rfl rfl (by decide) (by decide)

/-! ## Claim C3: format toggle -/

/-- Claim C3 (amended): for an open cursor confined to one `Text` block
and requested attributes `{bold: true}`, the emitted operation is
`retain(startOffset).retain(endOffset - startOffset, attribs)` where the
attributes carry `{bold: null}` exactly when the sliced range is a single
op whose `bold` attribute is truthy (the source tests
`prevDelta.ops.length === 1`), and `{bold: true}` otherwise — in
particular a range covering several ops is re-bolded even if every op is
already bold. -/
theorem C3_format_toggle_amended (ctl : Controller) (bid : String) (so eo : Nat)
    (blockEl : BlockDataElement) (d : Delta)
    (hed : ctl.hasEditor = true) (hne : so ≠ eo)
    (hfind : ctl.state.getBlockElementById bid = some blockEl)
    (ht : blockEl.t = textBlockName) (htx : blockEl.text = some d) :
    (formatTextOnCursor ctl ⟨bid, so, bid, eo⟩ (some [("bold", .boolV true)])).1 =
      ⟨[COp.textEditOp blockEl.id
          (dRetain (dRetain [] so none) (eo - so)
            (some (if (match sliceDelta d so (some eo) with
                | [op] => attrsTruthy (opAttrs op) "bold"
                | _ => false) = true then [("bold", AttrVal.nullV)]
              else [("bold", AttrVal.boolV true)])))], none⟩ := by
  have hcol : (⟨bid, so, bid, eo⟩ : CursorState).isCollapsed = false := by
    simp [CursorState.isCollapsed, hne]
  have hsplit : splitCursorStateByBlocks ctl.state ⟨bid, so, bid, eo⟩ =
      [⟨bid, so, bid, eo⟩] := by
    unfold splitCursorStateByBlocks
    rw [if_pos rfl]
  unfold formatTextOnCursor
  rw [hed]
  rw [if_neg (show ¬ ((!true) = true) from by simp)]
  rw [hcol]
  rw [if_neg (show ¬ (false = true) from by simp)]
  rw [hsplit]
  dsimp only
  rw [List.foldl_cons, List.foldl_nil]
  dsimp only
  rw [hfind]
  dsimp only
  rw [if_neg (show ¬ (blockEl.t ≠ textBlockName) from by rw [ht]; simp)]
  rw [htx]
  simp only [Option.getD_some]
  rcases hp : sliceDelta d so (some eo) with _ | ⟨op, tl⟩
  · rfl
  · rcases tl with _ | ⟨op2, tl2⟩
    · dsimp only
      simp only [List.map_cons, List.map_nil, List.foldl_cons, List.foldl_nil]
      by_cases hb : attrsTruthy (opAttrs op) "bold" = true
      · rw [hb]
        rfl
      · rw [Bool.not_eq_true] at hb
        rw [hb]
        rfl
    · rfl

/-- Counterexample for C3 as stated: a single-block range covering two
ops that both carry truthy `bold`, yet the emitted retain carries
`{bold: true}`, not `{bold: null}` — the source only toggles when the
sliced range is exactly one op. -/
theorem C3_format_toggle_counterexample :
    (∀ op ∈ sliceDelta
        [Op.insertOp "ab" (some [("bold", AttrVal.boolV true)]),
         Op.insertOp "cd" (some [("bold", AttrVal.boolV true), ("italic", AttrVal.boolV true)])]
        0 (some 4),
      attrsTruthy (opAttrs op) "bold" = true) ∧
    (formatTextOnCursor
      ⟨true, ⟨[⟨"Text", "blk-1",
        some [Op.insertOp "ab" (some [("bold", AttrVal.boolV true)]),
          Op.insertOp "cd" (some [("bold", AttrVal.boolV true), ("italic", AttrVal.boolV true)])]⟩],
        none, 0⟩⟩
      ⟨"blk-1", 0, "blk-1", 4⟩ (some [("bold", AttrVal.boolV true)])).1 =
      ⟨[COp.textEditOp "blk-1" [Op.retainOp 4 (some [("bold", AttrVal.boolV true)])]],
       none⟩ := by
  constructor
  · decide
  · rfl

/-- Witness for the amended C3 at a concrete toggling input: a single
bold op over the whole range flips to `{bold: null}`. -/
theorem C3_format_toggle_amended_witness :
    (formatTextOnCursor
      ⟨true, ⟨[⟨"Text", "blk-1", some [Op.insertOp "abcd" (some [("bold", AttrVal.boolV true)])]⟩],
        none, 0⟩⟩
      ⟨"blk-1", 1, "blk-1", 3⟩ (some [("bold", .boolV true)])).1 =
      ⟨[COp.textEditOp "blk-1"
          (dRetain (dRetain [] 1 none) (3 - 1)
            (some (if (match sliceDelta
                [Op.insertOp "abcd" (some [("bold", AttrVal.boolV true)])] 1 (some 3) with
                | [op] => attrsTruthy (opAttrs op) "bold"
                | _ => false) = true then [("bold", AttrVal.nullV)]
              else [("bold", AttrVal.boolV true)])))], none⟩ :=
  C3_format_toggle_amended
    ⟨true, ⟨[⟨"Text", "blk-1", some [Op.insertOp "abcd" (some [("bold", AttrVal.boolV true)])]⟩],
      none, 0⟩⟩
    "blk-1" 1 3
    ⟨"Text", "blk-1", some [Op.insertOp "abcd" (some [("bold", AttrVal.boolV true)])]⟩
    [Op.insertOp "abcd" (some [("bold", AttrVal.boolV true)])]
    rfl (by decide) rfl rfl rfl

/-! ## Claims C7 and C8: the paste div handler -/

/-- Claim C7: a pasted div with a registered `data-type` and a
`data-content` deserializing to a block data element yields that element
cloned under a freshly minted id; whenever the minted id differs from the
stored one (the generator is fresh), the returned element never bears the
id stored inside `data-content`. -/
theorem C7_divHandler_fresh_id (reg : List BlockDef) (gen : Nat) (node : HtmlDiv)
    (dt : String) (j : JsonNode) (bd : BlockDef) (b : BlockDataElement)
    (hdt : node.dataType = some dt) (hne : dt ≠ "")
    (hreg : getBlockDefByName reg dt = some bd)
    (hjc : node.dataContent = some j)
    (hnode : blockyNodeFromJsonNode j = .blockNode b) :
    divHandler reg gen node = some (cloneWithId b (mkBlockIdStr gen)) ∧
    (cloneWithId b (mkBlockIdStr gen)).id = mkBlockIdStr gen ∧
    (mkBlockIdStr gen ≠ b.id →
      ∀ e, divHandler reg gen node = some e → e.id ≠ b.id) := by
  have hrun : divHandler reg gen node = some (cloneWithId b (mkBlockIdStr gen)) := by
    unfold divHandler
    rw [hdt]
    dsimp only
    rw [if_neg hne, hreg, hjc]
    dsimp only
    rw [hnode]
  refine ⟨hrun, rfl, ?_⟩
  intro hfresh e he
  rw [hrun] at he
  have : e = cloneWithId b (mkBlockIdStr gen) := Option.some.inj he.symm
  rw [this]
  show mkBlockIdStr gen ≠ b.id
  exact hfresh

/-- Witness for C7 at a concrete input: the stored id `blk-5` is replaced
by the freshly minted `blk-42`. -/
theorem C7_divHandler_fresh_id_witness :
    divHandler [⟨"Text", none⟩] 42
      ⟨some "Text", some ⟨"Text", "blk-5", some [.insertOp "hi" none]⟩⟩ =
      some (cloneWithId ⟨"Text", "blk-5", some [.insertOp "hi" none]⟩ (mkBlockIdStr 42)) ∧
    (cloneWithId (⟨"Text", "blk-5", some [.insertOp "hi" none]⟩ : BlockDataElement)
      (mkBlockIdStr 42)).id = mkBlockIdStr 42 ∧
    (mkBlockIdStr 42 ≠ "blk-5" →
      ∀ e, divHandler [⟨"Text", none⟩] 42
        ⟨some "Text", some ⟨"Text", "blk-5", some [.insertOp "hi" none]⟩⟩ = some e →
        e.id ≠ "blk-5") :=
  C7_divHandler_fresh_id [⟨"Text", none⟩] 42
    ⟨some "Text", some ⟨"Text", "blk-5", some [.insertOp "hi" none]⟩⟩
    "Text" ⟨"Text", "blk-5", some [.insertOp "hi" none]⟩ ⟨"Text", none⟩
    ⟨"Text", "blk-5", some [.insertOp "hi" none]⟩
    rfl (by decide) rfl rfl rfl

/-- Claim C8: a pasted div whose `data-type` names a block that is not in
the registry yields no block data element — the element is dropped. -/
theorem C8_divHandler_unregistered (reg : List BlockDef) (gen : Nat)
    (node : HtmlDiv) (dt : String) (hdt : node.dataType = some dt)
    (hne : dt ≠ "") (hreg : getBlockDefByName reg dt = none) :
    divHandler reg gen node = none := by
  unfold divHandler
  rw [hdt]
  dsimp only
  rw [if_neg hne, hreg]

/-- Witness for C8 at a concrete input: `data-type="Image"` against a
registry holding only `Text`. -/
theorem C8_divHandler_unregistered_witness :
    divHandler [⟨"Text", none⟩] 0
      ⟨some "Image", some ⟨"Image", "blk-5", none⟩⟩ = none :=
  C8_divHandler_unregistered [⟨"Text", none⟩] 0
    ⟨some "Image", some ⟨"Image", "blk-5", none⟩⟩ "Image" rfl (by decide) rfl

/-! ## Claim C10: deleteBlock frame conditions -/

/-- Claim C10: `deleteBlock(id)` mutates nothing — body, cursor and
version included — unless an editor is mounted, the id resolves to a live
block element, and that element's type tag starts with an uppercase
letter; when all three hold, the block is removed and the version is
incremented once. -/
theorem C10_deleteBlock_frame (c : Controller) (id : String) :
    (c.hasEditor = false → deleteBlock c id = c) ∧
    (c.state.getBlockElementById id = none → deleteBlock c id = c) ∧
    (∀ bn, c.state.getBlockElementById id = some bn → isUpperCase bn.t = false →
      deleteBlock c id = c) ∧
    (∀ bn, c.hasEditor = true → c.state.getBlockElementById id = some bn →
      isUpperCase bn.t = true →
      (deleteBlock c id).state.body = c.state.body.filter (fun b => b.id ≠ bn.id) ∧
      (deleteBlock c id).state.version = c.state.version + 1 ∧
      (deleteBlock c id).hasEditor = c.hasEditor) := by
  refine ⟨?_, ?_, ?_, ?_⟩
  · intro h
    unfold deleteBlock
    rw [h]
    rfl
  · intro h
    unfold deleteBlock
    rw [h]
    cases c.hasEditor <;> rfl
  · intro bn hbn hup
    unfold deleteBlock
    rw [hbn]
    cases hed : c.hasEditor
    · rfl
    · rw [if_neg (show ¬ ((!true) = true) from by simp)]
      dsimp only
      rw [hup]
      rfl
  · intro bn hed hbn hup
    have hrun : deleteBlock c id =
        ⟨c.hasEditor, applyChangeset c.state (Changeset.empty.removeNode bn.id) true⟩ := by
      unfold deleteBlock
      rw [hbn, hed]
      rw [if_neg (show ¬ ((!true) = true) from by simp)]
      dsimp only
      rw [hup]
      rfl
    rw [hrun]
    exact ⟨rfl, rfl, rfl⟩

/-! ## Lemmas: the old editor's document -/

theorem docLength_append (a b : Delta) :
    docLength (a ++ b) = docLength a + docLength b := by
  unfold docLength
  rw [flatten_append, List.length_append]

theorem docLength_single_insert (ct : String) (at_ : Option Attrs) :
    docLength [Op.insertOp ct at_] = ct.length := by
  unfold docLength flatten
  show (opFlat (Op.insertOp ct at_) ++ []).length = ct.length
  rw [List.append_nil]
  exact length_opFlat_insert ct at_

theorem buildFromSlices_go : ∀ (slices : Delta), isDocB slices = true →
    ∀ (acc : Delta) (n : Nat), n = docLength acc →
    (slices.foldl
      (fun (acc2 : Delta × Nat) sl =>
        match sl with
        | .insertOp content attrs =>
          (oldInsertOps acc2.1 acc2.2 content attrs, acc2.2 + content.length)
        | _ => acc2)
      (acc, n)).1 = acc ++ slices
  | [], _, acc, n, _ => by simp
  | sl :: rest, h, acc, n, hn => by
    obtain ⟨⟨ct, at_, rfl⟩, hrest⟩ := isDocB_cons h
    rw [List.foldl_cons]
    show (rest.foldl _ (oldInsertOps acc n ct at_, n + ct.length)).1 = _
    have hins : oldInsertOps acc n ct at_ = acc ++ [Op.insertOp ct at_] := by
      unfold oldInsertOps
      rw [if_pos (by omega)]
    rw [hins]
    rw [buildFromSlices_go rest hrest (acc ++ [Op.insertOp ct at_]) (n + ct.length)
      (by rw [docLength_append, docLength_single_insert, hn])]
    simp

theorem buildFromSlices_eq (slices : Delta) (h : isDocB slices = true) :
    buildFromSlices slices = slices := by
  unfold buildFromSlices
  rw [buildFromSlices_go slices h [] 0 rfl]
  rfl

theorem flatten_oldDelete_prefix (ops : Delta) (h : isDocB ops = true) (k : Nat) :
    flatten (oldDeleteOps ops k (docLength ops - k)) = (flatten ops).take k := by
  unfold oldDeleteOps
  rw [flatten_append, flatten_slice_some ops h 0 k, flatten_slice_none ops h,
    List.drop_zero, Nat.sub_zero,
    List.drop_of_length_le (show (flatten ops).length ≤ k + (docLength ops - k) from by
      unfold docLength
      omega),
    List.append_nil]

theorem old_find_first {pre rest : List OldBlock} {bid : String} {b : OldBlock}
    (hb : b.id = bid) (hpre : ∀ x ∈ pre, x.id ≠ bid) :
    List.find? (fun x => x.id = bid) (pre ++ b :: rest) = some b := by
  induction pre with
  | nil =>
    rw [List.nil_append]
    exact List.find?_cons_of_pos _ (by simp [hb])
  | cons p ps ih =>
    rw [List.cons_append, List.find?_cons_of_neg _ (by simp [hpre p (by simp)])]
    exact ih (fun x hx => hpre x (by simp [hx]))

theorem old_map_update_nohit (l : List OldBlock) (bid : String)
    (g : OldBlock → OldBlock) (h : ∀ x ∈ l, x.id ≠ bid) :
    l.map (fun b => if b.id = bid then g b else b) = l := by
  induction l with
  | nil => rfl
  | cons a t ih =>
    rw [List.map_cons, if_neg (h a (by simp)), ih (fun x hx => h x (by simp [hx]))]

theorem old_filter_nohit (l : List OldBlock) (bid : String)
    (h : ∀ x ∈ l, x.id ≠ bid) : l.filter (fun b => b.id ≠ bid) = l := by
  induction l with
  | nil => rfl
  | cons a t ih =>
    rw [List.filter_cons, if_pos (by simp [h a (by simp)])]
    rw [ih (fun x hx => h x (by simp [hx]))]

theorem insertAfterId_decomp (pre post : List OldBlock) (b nb : OldBlock)
    (hpre : ∀ x ∈ pre, x.id ≠ b.id) :
    insertAfterId (pre ++ b :: post) b.id nb = pre ++ b :: nb :: post := by
  induction pre with
  | nil =>
    rw [List.nil_append]
    unfold insertAfterId
    rw [if_pos rfl]
    rfl
  | cons p ps ih =>
    rw [List.cons_append]
    unfold insertAfterId
    rw [if_neg (hpre p (by simp))]
    rw [ih (fun x hx => hpre x (by simp [hx]))]
    rfl

theorem old_id_facts (pre post : List OldBlock) (b : OldBlock)
    (hN : ((pre ++ b :: post).map OldBlock.id).Nodup) :
    (∀ x ∈ pre, x.id ≠ b.id) ∧ (∀ x ∈ post, x.id ≠ b.id) := by
  simp only [List.map_append, List.map_cons] at hN
  rw [List.nodup_append] at hN
  obtain ⟨_, hc, hdisj⟩ := hN
  rw [List.nodup_cons] at hc
  constructor
  · intro x hx heq
    exact hdisj (List.mem_map_of_mem _ hx) (by rw [heq]; simp)
  · intro x hx heq
    exact hc.1 (by rw [← heq]; exact List.mem_map_of_mem _ hx)

theorem old_findIdx_first : ∀ (pre : List OldBlock) (b : OldBlock)
    (rest : List OldBlock) (tid : String), b.id = tid →
    (∀ x ∈ pre, x.id ≠ tid) →
    List.findIdx (fun x => x.id = tid) (pre ++ b :: rest) = pre.length
  | [], b, rest, tid, hb, _ => by
    rw [List.nil_append, List.findIdx_cons]
    simp [hb]
  | p :: ps, b, rest, tid, hb, hpre => by
    rw [List.cons_append, List.findIdx_cons]
    have hp : ¬ (p.id = tid) := hpre p (by simp)
    simp only [hp, decide_False, Bool.false_eq_true, if_false, cond_false]
    rw [old_findIdx_first ps b rest tid hb (fun x hx => hpre x (by simp [hx]))]
    rfl

theorem old_getD_at : ∀ (pre : List OldBlock) (b : OldBlock) (rest : List OldBlock),
    (pre ++ b :: rest).getD pre.length ⟨"", 0, none⟩ = b
  | [], b, rest => rfl
  | p :: ps, b, rest => old_getD_at ps b rest

theorem old_get?_at : ∀ (pre : List OldBlock) (b : OldBlock) (rest : List OldBlock),
    (pre ++ b :: rest).get? pre.length = some b
  | [], b, rest => rfl
  | p :: ps, b, rest => old_get?_at ps b rest

/-! ## Claim C2: Enter splits a text block -/

/-- Claim C2: with a collapsed cursor at offset `k` of a block holding a
text model, `commitNewLine` leaves the block with the prefix `[0, k)` of
its content, inserts a fresh block as its immediate next sibling holding
the suffix `[k, n)` with its attributes, gives the new block the original
text type exactly when that type is in `preservedTextType` (else the
plain `Normal` type), and collapses the cursor at offset 0 of the new
block. -/
theorem C2_enter_splits (reg : List OldBlockDef) (s : OldState) (gen : Nat)
    (pre post : List OldBlock) (node : OldBlock) (tm : OldTextModel) (k : Nat)
    (hbody : s.body = pre ++ node :: post)
    (hN : (s.body.map OldBlock.id).Nodup)
    (hcur : s.cursor = some (.collapsed node.id k))
    (hdata : node.data = some tm)
    (hdoc : isDocB tm.ops = true) :
    ∃ prunedOps newOps : Delta,
      commitNewLine reg s gen =
        (⟨s.rootId,
          pre ++ ⟨node.id, node.flags, some ⟨tm.textType, prunedOps⟩⟩ ::
            ⟨mkBlockIdStr gen, flagsOfBlockName reg textBlockNameOld,
             some ⟨(if preservedTextType.contains tm.textType then tm.textType
               else TextType.normal), newOps⟩⟩ :: post,
          some (.collapsed (mkBlockIdStr gen) 0)⟩, gen + 1) ∧
      flatten prunedOps = (flatten tm.ops).take k ∧
      flatten newOps = (flatten tm.ops).drop k := by
  obtain ⟨g1, g2⟩ := old_id_facts pre post node (hbody ▸ hN)
  have hfind : findOldBlock s.body node.id = some node := by
    unfold findOldBlock
    rw [hbody]
    exact old_find_first rfl g1
  have hlen : tm.length = docLength tm.ops := rfl
  refine ⟨oldDeleteOps tm.ops k (tm.length - k),
    buildFromSlices (sliceDelta tm.ops k none), ?_, ?_, ?_⟩
  · unfold commitNewLine
    rw [hcur]
    dsimp only
    rw [hfind]
    dsimp only
    rw [hdata]
    dsimp only
    have hmap : s.body.map (fun b =>
        if b.id = node.id then
          ⟨b.id, b.flags, some ⟨tm.textType, oldDeleteOps tm.ops k (tm.length - k)⟩⟩
        else b) =
        pre ++ (⟨node.id, node.flags,
          some ⟨tm.textType, oldDeleteOps tm.ops k (tm.length - k)⟩⟩ : OldBlock) :: post := by
      rw [hbody, List.map_append, List.map_cons,
        old_map_update_nohit pre _ _ g1, old_map_update_nohit post _ _ g2, if_pos rfl]
    rw [show (fun b => if b.id = node.id then
        { b with data := some ⟨tm.textType, oldDeleteOps tm.ops k (tm.length - k)⟩ }
        else b) = (fun (b : OldBlock) => if b.id = node.id then
        (⟨b.id, b.flags, some ⟨tm.textType, oldDeleteOps tm.ops k (tm.length - k)⟩⟩ : OldBlock)
        else b) from rfl]
    rw [hmap]
    unfold applyOldAction
    dsimp only
    rw [if_pos rfl]
    rw [insertAfterId_decomp pre post
      (⟨node.id, node.flags, some ⟨tm.textType, oldDeleteOps tm.ops k (tm.length - k)⟩⟩ : OldBlock)
      _ g1]
  · rw [hlen, flatten_oldDelete_prefix tm.ops hdoc k]
  · rw [buildFromSlices_eq _ (isDocB_slice tm.ops hdoc k none),
      flatten_slice_none tm.ops hdoc k]

/-- Witness for C2 at the spec's concrete scenario: `"hello world"`,
cursor at offset 5 — the block keeps `"hello"`, the new sibling holds
`" world"`, and the cursor moves to offset 0 of the new block. -/
theorem C2_enter_splits_witness :
    ∃ prunedOps newOps : Delta,
      commitNewLine [⟨"text", true⟩]
        ⟨"root", [⟨"blk-1", 0, some ⟨.normal, [.insertOp "hello world" none]⟩⟩],
         some (.collapsed "blk-1" 5)⟩ 7 =
        (⟨"root",
          [⟨"blk-1", 0, some ⟨TextType.normal, prunedOps⟩⟩,
           ⟨mkBlockIdStr 7, flagsOfBlockName [⟨"text", true⟩] textBlockNameOld,
            some ⟨(if preservedTextType.contains TextType.normal then TextType.normal
              else TextType.normal), newOps⟩⟩],
          some (.collapsed (mkBlockIdStr 7) 0)⟩, 7 + 1) ∧
      flatten prunedOps = (flatten [Op.insertOp "hello world" none]).take 5 ∧
      flatten newOps = (flatten [Op.insertOp "hello world" none]).drop 5 := by
  have h := C2_enter_splits [⟨"text", true⟩]
    ⟨"root", [⟨"blk-1", 0, some ⟨.normal, [.insertOp "hello world" none]⟩⟩],
     some (.collapsed "blk-1" 5)⟩ 7
    [] [] ⟨"blk-1", 0, some ⟨.normal, [.insertOp "hello world" none]⟩⟩
    ⟨.normal, [.insertOp "hello world" none]⟩ 5
    rfl (by decide) rfl rfl (by decide)
  exact h

/-! ## Claim C4: Backspace on a focused block -/

theorem old_id_facts4 (pre post : List OldBlock) (a b : OldBlock)
    (hN : ((pre ++ a :: b :: post).map OldBlock.id).Nodup) :
    (∀ x ∈ pre, x.id ≠ b.id) ∧ a.id ≠ b.id ∧ (∀ x ∈ post, x.id ≠ b.id) := by
  simp only [List.map_append, List.map_cons] at hN
  rw [List.nodup_append] at hN
  obtain ⟨_, hc, hdisj⟩ := hN
  rw [List.nodup_cons] at hc
  obtain ⟨ha, hc2⟩ := hc
  rw [List.nodup_cons] at hc2
  refine ⟨?_, ?_, ?_⟩
  · intro x hx heq
    exact hdisj (List.mem_map_of_mem _ hx) (by rw [heq]; simp)
  · intro heq
    exact ha (by rw [heq]; simp)
  · intro x hx heq
    exact hc2.1 (by rw [← heq]; exact List.mem_map_of_mem _ hx)

/-- Claim C4 (amended): `deleteBlockOnFocusedCursor` — the routine behind
`handleBackspace` — performs no model mutation for a block whose
registered definition is editable (it returns `false`, leaving the event
to the browser default; in particular no text-block merge happens here),
and for a non-editable block it removes the block whole and collapses the
cursor at the end of the previous sibling's text. -/
theorem C4_backspace_amended (reg : List OldBlockDef) (s : OldState) :
    (∀ tid off i bdef, s.cursor = some (.collapsed tid off) →
      isBlockId tid = true → findOldIdx s.body tid = some i →
      reg.get? (s.body.getD i ⟨"", 0, none⟩).flags = some bdef →
      bdef.editable = true →
      deleteBlockOnFocusedCursor reg s = (false, s)) ∧
    (∀ tid off pre prevB node post bdef ptm,
      s.cursor = some (.collapsed tid off) → isBlockId tid = true →
      s.body = pre ++ prevB :: node :: post → node.id = tid →
      (s.body.map OldBlock.id).Nodup →
      reg.get? node.flags = some bdef → bdef.editable = false →
      prevB.data = some ptm →
      deleteBlockOnFocusedCursor reg s =
        (true, ⟨s.rootId, pre ++ prevB :: post,
          some (.collapsed prevB.id ptm.length)⟩)) := by
  constructor
  · intro tid off i bdef hcur hblk hidx hdef hed
    unfold deleteBlockOnFocusedCursor
    rw [hcur]
    dsimp only
    rw [hblk]
    rw [if_neg (show ¬ ((!true) = true) from by simp)]
    rw [hidx]
    dsimp only
    rw [hdef]
    dsimp only
    rw [hed]
    rfl
  · intro tid off pre prevB node post bdef ptm hcur hblk hbody htid hN hdef hed hptm
    obtain ⟨k1, k2, k3⟩ := old_id_facts4 pre post prevB node (hbody ▸ hN)
    rw [htid] at k1 k2 k3
    have hidx : findOldIdx s.body tid = some (pre.length + 1) := by
      unfold findOldIdx
      rw [hbody]
      have hfi : List.findIdx (fun x => x.id = tid) (pre ++ prevB :: node :: post) =
          (pre ++ [prevB]).length := by
        rw [show pre ++ prevB :: node :: post = (pre ++ [prevB]) ++ node :: post from by simp]
        exact old_findIdx_first (pre ++ [prevB]) node post tid htid
          (by
            intro x hx
            rcases List.mem_append.mp hx with hx | hx
            · exact k1 x hx
            · rcases List.mem_cons.mp hx with rfl | hx
              · exact k2
              · simp at hx)
      rw [hfi]
      rw [List.length_append, List.length_singleton]
      rw [if_pos (by simp only [List.length_append, List.length_cons]; omega)]
    have hgetD : s.body.getD (pre.length + 1) ⟨"", 0, none⟩ = node := by
      rw [hbody]
      rw [show pre ++ prevB :: node :: post = (pre ++ [prevB]) ++ node :: post from by simp]
      rw [show pre.length + 1 = (pre ++ [prevB]).length from by simp]
      exact old_getD_at (pre ++ [prevB]) node post
    have hget? : s.body.get? pre.length = some prevB := by
      rw [hbody]
      exact old_get?_at pre prevB (node :: post)
    unfold deleteBlockOnFocusedCursor
    rw [hcur]
    dsimp only
    rw [hblk]
    rw [if_neg (show ¬ ((!true) = true) from by simp)]
    rw [hidx]
    dsimp only
    rw [hgetD]
    rw [if_neg (show ¬ (pre.length + 1 = 0) from by omega)]
    rw [show pre.length + 1 - 1 = pre.length from by omega]
    rw [hget?]
    rw [hdef]
    dsimp only
    rw [hed]
    rw [if_neg (show ¬ (false = true) from by simp)]
    rw [hptm]
    unfold applyOldAction
    dsimp only
    have hfilter : s.body.filter (fun b => b.id ≠ tid) = pre ++ prevB :: post := by
      rw [hbody, List.filter_append]
      rw [old_filter_nohit pre tid k1]
      rw [List.filter_cons, if_pos (by simp [k2])]
      rw [List.filter_cons, if_neg (by simp [htid])]
      rw [old_filter_nohit post tid k3]
    rw [hfilter]

/-- Counterexample for C4 as stated: two text blocks `"abc"`, `"def"`
with an editable text definition and the cursor collapsed at offset 0 of
the second block — `handleBackspace` performs no model mutation at all
(no merge, no removal, `preventDefault` not taken), so the previous
block's delta does not become the concatenation and the current block is
not removed. -/
theorem C4_backspace_counterexample :
    handleBackspace [⟨"text", true⟩]
      ⟨"root",
       [⟨"blk-1", 0, some ⟨.normal, [.insertOp "abc" none]⟩⟩,
        ⟨"blk-2", 0, some ⟨.normal, [.insertOp "def" none]⟩⟩],
       some (.collapsed "blk-2" 0)⟩ =
      (⟨"root",
        [⟨"blk-1", 0, some ⟨.normal, [.insertOp "abc" none]⟩⟩,
         ⟨"blk-2", 0, some ⟨.normal, [.insertOp "def" none]⟩⟩],
        some (.collapsed "blk-2" 0)⟩, false) := by
  rfl

/-- Witness for the amended C4: the editable case at the counterexample's
state, and the non-editable case removing an image-like block with the
cursor landing at the end of the previous text. -/
theorem C4_backspace_amended_witness :
    deleteBlockOnFocusedCursor [⟨"text", true⟩]
      ⟨"root",
       [⟨"blk-1", 0, some ⟨.normal, [.insertOp "abc" none]⟩⟩,
        ⟨"blk-2", 0, some ⟨.normal, [.insertOp "def" none]⟩⟩],
       some (.collapsed "blk-2" 0)⟩ =
      (false,
       ⟨"root",
        [⟨"blk-1", 0, some ⟨.normal, [.insertOp "abc" none]⟩⟩,
         ⟨"blk-2", 0, some ⟨.normal, [.insertOp "def" none]⟩⟩],
        some (.collapsed "blk-2" 0)⟩) ∧
    deleteBlockOnFocusedCursor [⟨"text", true⟩, ⟨"image", false⟩]
      ⟨"root",
       [⟨"blk-1", 0, some ⟨.normal, [.insertOp "abc" none]⟩⟩,
        ⟨"blk-2", 1, none⟩],
       some (.collapsed "blk-2" 0)⟩ =
      (true,
       ⟨"root", [⟨"blk-1", 0, some ⟨.normal, [.insertOp "abc" none]⟩⟩],
        some (.collapsed "blk-1"
          (⟨TextType.normal, [Op.insertOp "abc" none]⟩ : OldTextModel).length)⟩) := by
  constructor
  · exact (C4_backspace_amended [⟨"text", true⟩]
      ⟨"root",
       [⟨"blk-1", 0, some ⟨.normal, [.insertOp "abc" none]⟩⟩,
        ⟨"blk-2", 0, some ⟨.normal, [.insertOp "def" none]⟩⟩],
       some (.collapsed "blk-2" 0)⟩).1 "blk-2" 0 1 ⟨"text", true⟩
      rfl (by decide) (by decide) rfl rfl
  · exact (C4_backspace_amended [⟨"text", true⟩, ⟨"image", false⟩]
      ⟨"root",
       [⟨"blk-1", 0, some ⟨.normal, [.insertOp "abc" none]⟩⟩,
        ⟨"blk-2", 1, none⟩],
       some (.collapsed "blk-2" 0)⟩).2 "blk-2" 0 []
      ⟨"blk-1", 0, some ⟨.normal, [.insertOp "abc" none]⟩⟩
      ⟨"blk-2", 1, none⟩ [] ⟨"image", false⟩
      ⟨TextType.normal, [Op.insertOp "abc" none]⟩
      rfl (by decide) rfl rfl (by decide) rfl rfl rfl

/-! ## Claim C9: IME composition suppresses input -/

theorem composing_inputs_noop {α : Type} (contentDiff : α → α) :
    ∀ (evts : List DomEvent) (t : ViewState α),
    (∀ e ∈ evts, e = DomEvent.inputEvt) → t.composing = true →
    evts.foldl (handleEvent contentDiff) t = t
  | [], _, _, _ => rfl
  | e :: rest, t, h, hc => by
    have he : e = DomEvent.inputEvt := h e (by simp)
    subst he
    rw [List.foldl_cons]
    have hstep : handleEvent contentDiff t .inputEvt = t := by
      unfold handleEvent
      rw [hc]
      rfl
    rw [hstep]
    exact composing_inputs_noop contentDiff rest t
      (fun x hx => h x (by simp [hx])) hc

/-- Claim C9: from `compositionstart` on, any run of `input` events
mutates nothing — the model and the diff counter are untouched and the
flag stays set; the following `compositionend` clears the flag and runs
the content diff exactly once. -/
theorem C9_composition_suppresses_input {α : Type} (contentDiff : α → α)
    (s : ViewState α) (evts : List DomEvent)
    (hin : ∀ e ∈ evts, e = DomEvent.inputEvt) :
    (evts.foldl (handleEvent contentDiff)
      (handleEvent contentDiff s .compositionstart)).model = s.model ∧
    (evts.foldl (handleEvent contentDiff)
      (handleEvent contentDiff s .compositionstart)).diffCount = s.diffCount ∧
    (evts.foldl (handleEvent contentDiff)
      (handleEvent contentDiff s .compositionstart)).composing = true ∧
    (handleEvent contentDiff (evts.foldl (handleEvent contentDiff)
      (handleEvent contentDiff s .compositionstart)) .compositionend).composing = false ∧
    (handleEvent contentDiff (evts.foldl (handleEvent contentDiff)
      (handleEvent contentDiff s .compositionstart)) .compositionend).model =
      contentDiff s.model ∧
    (handleEvent contentDiff (evts.foldl (handleEvent contentDiff)
      (handleEvent contentDiff s .compositionstart)) .compositionend).diffCount =
      s.diffCount + 1 := by
  have hstart : handleEvent contentDiff s .compositionstart =
      ⟨true, s.model, s.diffCount⟩ := rfl
  have hfold : evts.foldl (handleEvent contentDiff)
      (handleEvent contentDiff s .compositionstart) =
      ⟨true, s.model, s.diffCount⟩ := by
    rw [hstart]
    exact composing_inputs_noop contentDiff evts ⟨true, s.model, s.diffCount⟩ hin rfl
  rw [hfold]
  exact ⟨rfl, rfl, rfl, rfl, rfl, rfl⟩

/-- Witness for C9: a concrete counter model with two input events during
composition — nothing changes until `compositionend`, which runs the diff
once. -/
theorem C9_composition_suppresses_input_witness :
    ([DomEvent.inputEvt, DomEvent.inputEvt].foldl (handleEvent (fun (n : Nat) => n + 10))
      (handleEvent (fun (n : Nat) => n + 10) ⟨false, 0, 0⟩ .compositionstart)).model = 0 ∧
    ([DomEvent.inputEvt, DomEvent.inputEvt].foldl (handleEvent (fun (n : Nat) => n + 10))
      (handleEvent (fun (n : Nat) => n + 10) ⟨false, 0, 0⟩ .compositionstart)).diffCount = 0 ∧
    ([DomEvent.inputEvt, DomEvent.inputEvt].foldl (handleEvent (fun (n : Nat) => n + 10))
      (handleEvent (fun (n : Nat) => n + 10) ⟨false, 0, 0⟩ .compositionstart)).composing = true ∧
    (handleEvent (fun (n : Nat) => n + 10)
      ([DomEvent.inputEvt, DomEvent.inputEvt].foldl (handleEvent (fun (n : Nat) => n + 10))
        (handleEvent (fun (n : Nat) => n + 10) ⟨false, 0, 0⟩ .compositionstart))
      .compositionend).composing = false ∧
    (handleEvent (fun (n : Nat) => n + 10)
      ([DomEvent.inputEvt, DomEvent.inputEvt].foldl (handleEvent (fun (n : Nat) => n + 10))
        (handleEvent (fun (n : Nat) => n + 10) ⟨false, 0, 0⟩ .compositionstart))
      .compositionend).model = (fun (n : Nat) => n + 10) 0 ∧
    (handleEvent (fun (n : Nat) => n + 10)
      ([DomEvent.inputEvt, DomEvent.inputEvt].foldl (handleEvent (fun (n : Nat) => n + 10))
        (handleEvent (fun (n : Nat) => n + 10) ⟨false, 0, 0⟩ .compositionstart))
      .compositionend).diffCount = 0 + 1 :=
  C9_composition_suppresses_input (fun (n : Nat) => n + 10) ⟨false, 0, 0⟩
    [DomEvent.inputEvt, DomEvent.inputEvt] (by decide)

/-- Witness for C10: an unknown id leaves a concrete controller intact;
an uppercase `Text` block is removed with the version bumped. -/
theorem C10_deleteBlock_frame_witness :
    deleteBlock ⟨true, ⟨[⟨"Text", "blk-1", some [.insertOp "a" none]⟩], none, 0⟩⟩ "nope" =
      ⟨true, ⟨[⟨"Text", "blk-1", some [.insertOp "a" none]⟩], none, 0⟩⟩ ∧
    (deleteBlock ⟨true, ⟨[⟨"Text", "blk-1", some [.insertOp "a" none]⟩], none, 0⟩⟩
      "blk-1").state.body = [] ∧
    (deleteBlock ⟨true, ⟨[⟨"Text", "blk-1", some [.insertOp "a" none]⟩], none, 0⟩⟩
      "blk-1").state.version = 1 := by
  refine ⟨?_, ?_, ?_⟩
  · exact (C10_deleteBlock_frame
      ⟨true, ⟨[⟨"Text", "blk-1", some [.insertOp "a" none]⟩], none, 0⟩⟩ "nope").2.1 rfl
  · exact ((C10_deleteBlock_frame
      ⟨true, ⟨[⟨"Text", "blk-1", some [.insertOp "a" none]⟩], none, 0⟩⟩ "blk-1").2.2.2
      ⟨"Text", "blk-1", some [.insertOp "a" none]⟩ rfl rfl (by decide)).1.trans (by decide)
  · exact ((C10_deleteBlock_frame
      ⟨true, ⟨[⟨"Text", "blk-1", some [.insertOp "a" none]⟩], none, 0⟩⟩ "blk-1").2.2.2
      ⟨"Text", "blk-1", some [.insertOp "a" none]⟩ rfl rfl (by decide)).2.1

end Blocky
